import Mathlib

/-!
Verification development for the Garmin data-harvesting engine
(`fetch_garmin_data.py`).

The Python source is shallowly embedded: JSON-like runtime values become the
inductive `Val`, keyword-argument dictionaries become association lists with
unique keys, the remote client becomes an oracle function (one outcome per
issued call), and the stateful orchestration becomes explicit state passing
over a typed `Envelope`.  Wall-clock readings (`time.perf_counter`) are
modelled as natural-number tick counts supplied by the oracle; file system
writes (`write_json`) are pure bookkeeping no-ops because the envelope value
being written is exactly the value the functions here return.
-/

namespace GarminFetch

/-- Python/JSON runtime values as they occur in requests, responses and seed
data: `None`, booleans, integers, strings, lists and string-keyed dicts.
Binary payloads (`bytes`) and floats do not occur in any value a claim
inspects and are not modelled. -/
inductive Val where
  | vnull
  | vbool (b : Bool)
  | vint (n : Int)
  | vstr (s : String)
  | vlist (xs : List Val)
  | vdict (fs : List (String × Val))

mutual

/-- Structural equality on `Val`, mirroring Python `==` on JSON-shaped data. -/
def valBeq : Val → Val → Bool
  | .vnull, .vnull => true
  | .vbool a, .vbool b => a == b
  | .vint a, .vint b => a == b
  | .vstr a, .vstr b => a == b
  | .vlist a, .vlist b => valListBeq a b
  | .vdict a, .vdict b => valFieldsBeq a b
  | _, _ => false

/-- Elementwise equality for lists of values. -/
def valListBeq : List Val → List Val → Bool
  | [], [] => true
  | x :: xs, y :: ys => valBeq x y && valListBeq xs ys
  | _, _ => false

/-- Elementwise equality for dict field lists. -/
def valFieldsBeq : List (String × Val) → List (String × Val) → Bool
  | [], [] => true
  | (k1, v1) :: xs, (k2, v2) :: ys => k1 == k2 && valBeq v1 v2 && valFieldsBeq xs ys
  | _, _ => false

end

instance : BEq Val := ⟨valBeq⟩

/-- Keyword arguments of one remote call: a dict built by the planner, keys
unique by construction. -/
abbrev Kwargs := List (String × Val)

/-- Association-list lookup, mirroring Python `dict.get`. -/
def lookupVal : Kwargs → String → Option Val
  | [], _ => none
  | (k, v) :: rest, key => if k = key then some v else lookupVal rest key

/-- Dict assignment `kw[k] = v`: replace an existing binding, else append. -/
def setK (kw : Kwargs) (k : String) (v : Val) : Kwargs :=
  if (kw.map Prod.fst).contains k then
    kw.map (fun p => if p.1 = k then (k, v) else p)
  else kw ++ [(k, v)]

/-- Python truthiness of a JSON-shaped value (`if value:`). -/
def valTruthy : Val → Bool
  | .vnull => false
  | .vbool b => b
  | .vint n => n != 0
  | .vstr s => s ≠ ""
  | .vlist xs => !xs.isEmpty
  | .vdict fs => !fs.isEmpty

/-! ### Strings: substring containment (Python `in`) and lexicographic order -/

/-- Whether `p` is a prefix of `s` (character lists). -/
def listStartsWith : List Char → List Char → Bool
  | [], _ => true
  | _ :: _, [] => false
  | p :: ps, c :: cs => p == c && listStartsWith ps cs

/-- Whether `pat` occurs contiguously inside `s` (character lists). -/
def listContainsSub (pat : List Char) : List Char → Bool
  | [] => pat.isEmpty
  | c :: cs => listStartsWith pat (c :: cs) || listContainsSub pat cs

/-- Python `pat in s` on strings. -/
def strContains (s pat : String) : Bool := listContainsSub pat.toList s.toList

/-- Python `s.startswith(p)`. -/
def strStartsWith (s p : String) : Bool := listStartsWith p.toList s.toList

/-- Strict lexicographic order on character lists by code point,
matching Python string `<`. -/
def listLt : List Char → List Char → Bool
  | [], [] => false
  | [], _ :: _ => true
  | _ :: _, [] => false
  | a :: as_, b :: bs => a.val < b.val || (a == b && listLt as_ bs)

/-- Python `s < t` on strings. -/
def strLt (s t : String) : Bool := listLt s.toList t.toList

/-! ### Canonical request keys (`request_key`)

`request_key` in the source is `json.dumps(kwargs, ensure_ascii=False,
sort_keys=True, separators=(",", ":"))`.  We first canonicalise (sort every
dict's fields by key), then serialise compactly. -/

/-- One hex digit. -/
def hexDigit (n : Nat) : String :=
  match n with
  | 0 => "0" | 1 => "1" | 2 => "2" | 3 => "3" | 4 => "4"
  | 5 => "5" | 6 => "6" | 7 => "7" | 8 => "8" | 9 => "9"
  | 10 => "a" | 11 => "b" | 12 => "c" | 13 => "d" | 14 => "e"
  | _ => "f"

/-- JSON escaping of one character, as `json.dumps` with
`ensure_ascii=False` performs it. -/
def escapeJsonChar (c : Char) : String :=
  if c = '"' then "\\\""
  else if c = '\\' then "\\\\"
  else if c = '\n' then "\\n"
  else if c = '\t' then "\\t"
  else if c = '\r' then "\\r"
  else if c = '\x08' then "\\b"
  else if c = '\x0c' then "\\f"
  else if c.val < 32 then "\\u00" ++ hexDigit (c.toNat / 16) ++ hexDigit (c.toNat % 16)
  else String.mk [c]

/-- JSON string literal serialisation. -/
def jsonQuote (s : String) : String :=
  "\"" ++ String.join (s.toList.map escapeJsonChar) ++ "\""

/-- Insert a field into a key-sorted field list, keeping keys sorted as
`sort_keys=True` does (keys in one dict are unique, so ties are immaterial). -/
def insertField (p : String × Val) : List (String × Val) → List (String × Val)
  | [] => [p]
  | q :: rest => if strLt q.1 p.1 then q :: insertField p rest else p :: q :: rest

/-- Sort a field list by key. -/
def sortFields : List (String × Val) → List (String × Val)
  | [] => []
  | p :: rest => insertField p (sortFields rest)

mutual

/-- Canonicalise a value: sort every dict's fields by key, recursively. -/
def canonVal : Val → Val
  | .vnull => .vnull
  | .vbool b => .vbool b
  | .vint n => .vint n
  | .vstr s => .vstr s
  | .vlist xs => .vlist (canonList xs)
  | .vdict fs => .vdict (sortFields (canonFields fs))

/-- Canonicalise each value of a list. -/
def canonList : List Val → List Val
  | [] => []
  | x :: xs => canonVal x :: canonList xs

/-- Canonicalise each field value of a dict. -/
def canonFields : List (String × Val) → List (String × Val)
  | [] => []
  | (k, v) :: fs => (k, canonVal v) :: canonFields fs

end

mutual

/-- Compact JSON serialisation (separators `","` and `":"`), assuming the
value has already been canonicalised. -/
def jsonDump : Val → String
  | .vnull => "null"
  | .vbool b => if b then "true" else "false"
  | .vint n => toString n
  | .vstr s => jsonQuote s
  | .vlist xs => "[" ++ jsonDumpList xs ++ "]"
  | .vdict fs => "\x7b" ++ jsonDumpFields fs ++ "\x7d"

/-- Serialise list elements joined by commas. -/
def jsonDumpList : List Val → String
  | [] => ""
  | [x] => jsonDump x
  | x :: y :: rest => jsonDump x ++ "," ++ jsonDumpList (y :: rest)

/-- Serialise dict fields joined by commas. -/
def jsonDumpFields : List (String × Val) → String
  | [] => ""
  | [(k, v)] => jsonQuote k ++ ":" ++ jsonDump v
  | (k, v) :: q :: rest => jsonQuote k ++ ":" ++ jsonDump v ++ "," ++ jsonDumpFields (q :: rest)

end

/-- `request_key`: stable key for request kwargs — key-sorted compact JSON
serialisation of the kwargs dict. -/
def request_key (kwargs : Kwargs) : String :=
  jsonDump (canonVal (.vdict kwargs))

/-! ### The retry wrapper (`safe_call`) -/

/-- Deterministic-client-error detection from the source:
`"400 Client Error" in str(exc) or "(400)" in str(exc)`. -/
def isClientError (msg : String) : Bool :=
  strContains msg "400 Client Error" || strContains msg "(400)"

/-- The retry loop of `safe_call`, over an oracle giving the outcome of the
i-th attempt of this one call and the wall-clock ticks it consumes.  Returns
the result (success carries the elapsed time since the first attempt started)
together with the number of attempts actually made.  Arguments after the
oracles: attempt index, elapsed ticks so far, remaining iterations, last
error seen. -/
def safeCallGo (attempt : Nat → Except String Val) (cost : Nat → Nat) :
    Nat → Nat → Nat → Option String → Except String (Val × Nat) × Nat
  | _, _, 0, last =>
      -- after the loop: `assert last_exc is not None; raise last_exc`
      (.error (last.getD "assertion failed: no attempt made"), 0)
  | i, el, r + 1, _ =>
      match attempt i with
      | .ok v => (.ok (v, el + cost i), 1)
      | .error e =>
          -- 4xx parameter/feature errors are deterministic; no retry.
          if isClientError e then (.error e, 1)
          else
            let rec_ := safeCallGo attempt cost (i + 1) (el + cost i) r (some e)
            (rec_.1, rec_.2 + 1)

/-- `safe_call(client, method, kwargs, retries)`: up to `retries + 1`
attempts of one remote call; result paired with the number of attempts made.
(The `getattr` guard for a missing client method is outside this model: the
attempt oracle stands for the bound method.) -/
def safe_call_run (attempt : Nat → Except String Val) (cost : Nat → Nat)
    (retries : Nat) : Except String (Val × Nat) × Nat :=
  safeCallGo attempt cost 0 0 (retries + 1) none

/-- The value `safe_call` returns (or the error it raises). -/
def safe_call (attempt : Nat → Except String Val) (cost : Nat → Nat)
    (retries : Nat) : Except String (Val × Nat) :=
  (safe_call_run attempt cost retries).1

/-! ### Signature parsing and call-type classification -/

/-- Python `str.strip()` on a character list. -/
def trimChars (cs : List Char) : List Char :=
  ((cs.dropWhile Char.isWhitespace).reverse.dropWhile Char.isWhitespace).reverse

/-- Python `str.split(",")` on a character list (accumulator holds the
current piece reversed). -/
def splitCommaAux : List Char → List Char → List (List Char)
  | [], acc => [acc.reverse]
  | c :: cs, acc =>
      if c = ',' then acc.reverse :: splitCommaAux cs []
      else splitCommaAux cs (c :: acc)

/-- `parse_signature_params`: parameter names between the first `(` and the
last `)`, comma-separated, everything after `=` dropped, blanks skipped. -/
def parse_signature_params (signature : String) : List String :=
  if signature.toList.contains '(' && signature.toList.contains ')' then
    let afterParen := (signature.toList.dropWhile (fun c => c ≠ '(')).drop 1
    let inside := ((afterParen.reverse.dropWhile (fun c => c ≠ ')')).drop 1).reverse
    let insideT := trimChars inside
    if insideT.isEmpty then []
    else
      (splitCommaAux insideT []).filterMap (fun part =>
        let token := trimChars part
        if token.isEmpty then none
        else
          let name := trimChars (token.takeWhile (fun c => c ≠ '='))
          if name.isEmpty then none else some (String.mk name))
  else []

/-- `SPECIAL_METHODS` from the source. -/
def SPECIAL_METHODS : List String :=
  ["get_lactate_threshold", "get_goals", "get_race_predictions",
   "get_progress_summary_between_dates"]

/-- `EXCLUDED_METHODS` from the source: known duplicates, skipped entirely. -/
def EXCLUDED_METHODS : List String :=
  ["get_stats", "get_stress_data", "get_activities_by_date"]

/-- `ID_PARAM_TO_SEED_KEY` from the source, in insertion order. -/
def ID_PARAM_TO_SEED_KEY : List (String × String) :=
  [("activity_id", "activity_ids"),
   ("workout_id", "workout_ids"),
   ("scheduled_workout_id", "scheduled_workout_ids"),
   ("device_id", "device_ids"),
   ("userProfileNumber", "user_profile_numbers"),
   ("gearUUID", "gear_uuids"),
   ("plan_id", "plan_ids")]

/-- `classify_call_type`: ordered first-match-wins rule list over the method
name and its parsed parameter names. -/
def classify_call_type (method_name : String) (signature : String) : String :=
  let params := parse_signature_params signature
  if strStartsWith method_name "download_" then "download"
  else if SPECIAL_METHODS.contains method_name then "special"
  else if params.isEmpty then "noarg"
  else if strStartsWith method_name "get_weekly_" || params.contains "weeks" then "weekly"
  else if params.contains "cdate" || params.contains "fordate" then "daily"
  else if params.contains "start" && params.contains "limit" then "paged"
  else if params.contains "startdate" || params.contains "enddate" ||
          params.contains "start_date" || params.contains "end_date" then "date_range"
  else if ID_PARAM_TO_SEED_KEY.any (fun p => params.contains p.1) then "id_based"
  else "special"

/-! ### Calendar dates

`datetime.date` values are embedded as year/month/day triples; `+=
timedelta(days=1)` becomes `nextDate`, and comparison is the lexicographic
order Python uses on dates. -/

/-- A calendar date. -/
structure Date where
  y : Nat
  m : Nat
  d : Nat
deriving DecidableEq

/-- Gregorian leap-year rule. -/
def isLeap (y : Nat) : Bool :=
  (y % 4 == 0 && y % 100 != 0) || (y % 400 == 0)

/-- Days in month `m` of year `y` (0 outside 1..12). -/
def daysInMonth (y : Nat) (m : Nat) : Nat :=
  match m with
  | 1 => 31
  | 2 => if isLeap y then 29 else 28
  | 3 => 31
  | 4 => 30
  | 5 => 31
  | 6 => 30
  | 7 => 31
  | 8 => 31
  | 9 => 30
  | 10 => 31
  | 11 => 30
  | 12 => 31
  | _ => 0

/-- Days of year `y` that fall strictly before month `m`. -/
def monthPrefixDays (y : Nat) : Nat → Nat
  | 0 => 0
  | m + 1 => monthPrefixDays y m + daysInMonth y m

/-- One-based ordinal of a date within its own year. -/
def dayIdx (dt : Date) : Nat := monthPrefixDays dt.y dt.m + dt.d

/-- Number of days in year `y`. -/
def daysInYear (y : Nat) : Nat := monthPrefixDays y 13

/-- A real calendar date of year `y`. -/
def validIn (y : Nat) (dt : Date) : Prop :=
  dt.y = y ∧ 1 ≤ dt.m ∧ dt.m ≤ 12 ∧ 1 ≤ dt.d ∧ dt.d ≤ daysInMonth y dt.m

instance (y : Nat) (dt : Date) : Decidable (validIn y dt) := by
  unfold validIn; infer_instance

/-- `date + timedelta(days=1)`. -/
def nextDate (dt : Date) : Date :=
  if dt.d < daysInMonth dt.y dt.m then ⟨dt.y, dt.m, dt.d + 1⟩
  else if dt.m < 12 then ⟨dt.y, dt.m + 1, 1⟩
  else ⟨dt.y + 1, 1, 1⟩

/-- `date + timedelta(days=n)`, as `n` single-day steps. -/
def addDaysN (dt : Date) : Nat → Date
  | 0 => dt
  | n + 1 => addDaysN (nextDate dt) n

/-- Python `a <= b` on dates (lexicographic on year, month, day). -/
def dateLeB (a b : Date) : Bool :=
  a.y < b.y || (a.y == b.y && (a.m < b.m || (a.m == b.m && a.d ≤ b.d)))

/-- Python `a < b` on dates. -/
def dateLtB (a b : Date) : Bool :=
  a.y < b.y || (a.y == b.y && (a.m < b.m || (a.m == b.m && a.d < b.d)))

/-- Python `min(a, b)` on dates. -/
def minDate (a b : Date) : Date := if dateLtB b a then b else a

/-- Zero-pad a numeral string to width 2. -/
def pad2 (n : Nat) : String := if n < 10 then "0" ++ toString n else toString n

/-- Zero-pad a numeral string to width 4 (`date.isoformat` year field). -/
def pad4 (n : Nat) : String :=
  if n < 10 then "000" ++ toString n
  else if n < 100 then "00" ++ toString n
  else if n < 1000 then "0" ++ toString n
  else toString n

/-- `date.isoformat()`: `YYYY-MM-DD`. -/
def isoDate (dt : Date) : String :=
  pad4 dt.y ++ "-" ++ pad2 dt.m ++ "-" ++ pad2 dt.d

/-- The `while current <= end` loop of `iter_year_dates`, with explicit fuel.
Each iteration yields the current date and advances one day; the caller
passes fuel at least the number of days in the range, so the fuel bound is
never the reason the loop stops. -/
def iterDatesGo : Nat → Date → Date → List Date
  | 0, _, _ => []
  | fuel + 1, cur, last =>
      if dateLeB cur last then cur :: iterDatesGo fuel (nextDate cur) last else []

/-- `iter_year_dates(year)` as date values: January 1 through December 31 of
`year`, one day at a time (366 ≥ days of any year). The source yields each
date's `isoformat()` string; call sites apply `isoDate` where the string is
used. -/
def iter_year_dates (year : Nat) : List Date :=
  iterDatesGo 366 ⟨year, 1, 1⟩ ⟨year, 12, 31⟩

/-- The `while current <= end_dt` loop of `chunk_date_range`, with explicit
fuel (the loop advances at least one day per iteration, so fuel bounding the
range length is never the reason it stops). -/
def chunkGo (maxDays : Nat) : Nat → Date → Date → List (Date × Date)
  | 0, _, _ => []
  | fuel + 1, cur, last =>
      if dateLeB cur last then
        let chunkEnd := minDate (addDaysN cur (maxDays - 1)) last
        (cur, chunkEnd) :: chunkGo maxDays fuel (nextDate chunkEnd) last
      else []

/-- `chunk_date_range(start_iso, end_iso, max_days)`.  The source parses the
two ISO strings back into dates with `strptime`; here the date values are
passed directly (`strptime(d.isoformat()) = d`). -/
def chunk_date_range (startDt endDt : Date) (maxDays : Nat) : List (Date × Date) :=
  chunkGo maxDays 400 startDt endDt

/-! ### Seed context construction

The remote client is modelled as a call oracle: for every bootstrap call the
oracle gives the value `safe_call` returned for it, or the error it raised
after its retries. -/

/-- Outcome of one (retry-wrapped) remote call during seed construction,
keyed by method name and kwargs. -/
abbrev Client := String → Kwargs → Except String Val

/-- Whether a value is a Python dict. -/
def isDictB : Val → Bool
  | .vdict _ => true
  | _ => false

/-- `payload.get(k)` on dicts, `none` otherwise. -/
def dictGet (v : Val) (k : String) : Option Val :=
  match v with
  | .vdict fs => lookupVal fs k
  | _ => none

/-- `v.get(k)` filtered by `is not None`. -/
def fieldNotNone (v : Val) (k : String) : Option Val :=
  match dictGet v k with
  | some x => if valBeq x .vnull then none else some x
  | none => none

/-- `v.get(k)` filtered by truthiness (`if v.get(k):`). -/
def fieldTruthy (v : Val) (k : String) : Option Val :=
  match dictGet v k with
  | some x => if valTruthy x then some x else none
  | none => none

/-- First of the known wrapper keys holding a list. -/
def extractFromKeys (fs : List (String × Val)) : List String → List Val
  | [] => []
  | k :: rest =>
      match lookupVal fs k with
      | some (.vlist xs) => xs
      | _ => extractFromKeys fs rest

/-- `extract_items`: a bare list, or the first known wrapper key holding a
list, else empty. -/
def extract_items (payload : Val) : List Val :=
  match payload with
  | .vlist xs => xs
  | .vdict fs =>
      extractFromKeys fs ["items", "activities", "activityList", "workouts",
                          "trainingPlanList", "goals"]
  | _ => []

/-- `get_activity_date_str`: first ten characters of `startTimeLocal` (or,
when that is falsy, `startTimeGMT`) when it is a non-empty string. -/
def get_activity_date_str (a : Val) : String :=
  let raw :=
    match dictGet a "startTimeLocal" with
    | some v => if valTruthy v then some v else dictGet a "startTimeGMT"
    | none => dictGet a "startTimeGMT"
  match raw with
  | some (.vstr s) => if s = "" then "" else String.mk (s.toList.take 10)
  | _ => ""

/-- Total order on values used for `sorted(...)`: by canonical serialisation
(injective on JSON-shaped data, so a deterministic total order; the seed id
collections are homogeneous, so the exact order is immaterial, only
determinism and dedup are). -/
def valLe (a b : Val) : Bool :=
  !(strLt (jsonDump (canonVal b)) (jsonDump (canonVal a)))

/-- Deduplicate preserving first occurrence (`set(...)` contents). -/
def dedupVals (xs : List Val) : List Val :=
  xs.foldl (fun acc x => if acc.contains x then acc else acc ++ [x]) []

/-- Insertion into a `valLe`-sorted list. -/
def insertVal (x : Val) : List Val → List Val
  | [] => [x]
  | y :: rest => if valLe y x then y :: insertVal x rest else x :: y :: rest

/-- Insertion sort by `valLe`. -/
def sortVals : List Val → List Val
  | [] => []
  | x :: xs => insertVal x (sortVals xs)

/-- `sorted(set(xs))`. -/
def dedupSort (xs : List Val) : List Val := sortVals (dedupVals xs)

/-- The page loop of `fetch_activities_for_year`: arguments are fuel (500,
matching `while page < 500` since `page` advances by exactly one), current
page, consecutive-empty-page count, and the accumulated in-year activities.
A failing page call breaks out with what was accumulated so far. -/
def fetchActsGo (call : Client) (year : Nat) : Nat → Nat → Nat → List Val → List Val
  | 0, _, _, acc => acc
  | fuel + 1, page, emptyPages, acc =>
      if page < 500 then
        match call "get_activities"
            [("start", .vint (page * 100)), ("limit", .vint 100)] with
        | .error _ => acc
        | .ok batch =>
            match batch with
            | .vlist (a :: rest) =>
                let items := a :: rest
                let yearDash := toString year ++ "-"
                let inYear := items.filter (fun act =>
                  isDictB act && strStartsWith (get_activity_date_str act) yearDash)
                let hasOlder := items.any (fun act =>
                  isDictB act &&
                    (let ds := get_activity_date_str act
                     !(strStartsWith ds yearDash) && ds ≠ "" &&
                       strLt ds (yearDash ++ "01-01")))
                let acc2 := acc ++ inYear
                if inYear.length == 0 && hasOlder then acc2
                else fetchActsGo call year fuel (page + 1) 0 acc2
            | _ =>
                -- not a list, or an empty list
                if emptyPages + 1 ≥ 2 then acc
                else fetchActsGo call year fuel (page + 1) (emptyPages + 1) acc
      else acc

/-- `fetch_activities_for_year`: paginate the unbounded activity feed,
keeping activities of the target year; every page call is individually
fault-tolerant. -/
def fetch_activities_for_year (call : Client) (year : Nat) : List Val :=
  fetchActsGo call year 500 0 0 []

/-- The cursor loop of `fetch_all_workouts` (fuel 200 matches
`while start < 20000` with step 100).  A failing call propagates as an
error, to be caught by `build_seed_context`. -/
def fetchWorkoutsGo (call : Client) : Nat → Int → List Val → Except String (List Val)
  | 0, _, acc => .ok acc
  | fuel + 1, start, acc =>
      if start < 20000 then
        match call "get_workouts" [("start", .vint start), ("limit", .vint 100)] with
        | .error e => .error e
        | .ok payload =>
            let items := extract_items payload
            if items.isEmpty then .ok acc
            else
              let acc2 := acc ++ items.filter isDictB
              if items.length < 100 then .ok acc2
              else fetchWorkoutsGo call fuel (start + 100) acc2
      else .ok acc

/-- `fetch_all_workouts`. -/
def fetch_all_workouts (call : Client) : Except String (List Val) :=
  fetchWorkoutsGo call 200 0 []

/-- The seed context: year bounds, all dates of the year, deduplicated
sorted id collections, and raw bootstrap payloads keyed by method name. -/
structure SeedContext where
  year : Nat
  start_date : Date
  end_date : Date
  dates : List Date
  activity_ids : List Val
  workout_ids : List Val
  scheduled_workout_ids : List Val
  device_ids : List Val
  user_profile_numbers : List Val
  gear_uuids : List Val
  plan_ids : List Val
  cached_method_data : List (String × Val)

/-- `build_seed_context`: the fixed bootstrap sequence.  Every call is
individually guarded; a failure leaves the corresponding default in place. -/
def build_seed_context (call : Client) (year : Nat) : SeedContext :=
  let activities := fetch_activities_for_year call year
  let activity_ids0 := activities.filterMap (fun a =>
    if isDictB a then fieldTruthy a "activityId" else none)
  let workouts := match fetch_all_workouts call with
    | .ok ws => ws
    | .error _ => []
  let workout_ids0 := workouts.filterMap (fun w =>
    if isDictB w then fieldNotNone w "workoutId" else none)
  let sched_ids0 := workouts.filterMap (fun w =>
    if isDictB w then fieldNotNone w "scheduledWorkoutId" else none)
  let devices := match call "get_devices" [] with
    | .ok v => v
    | .error _ => .vlist []
  let device_ids0 : List Val :=
    match devices with
    | .vlist ds => ds.filterMap (fun d =>
        if isDictB d then fieldNotNone d "deviceId" else none)
    | _ => []
  let profile := match call "get_user_profile" [] with
    | .ok v => v
    | .error _ => .vdict []
  let upn0 : List Val :=
    (match fieldNotNone profile "userProfileNumber" with
     | some v => [v]
     | none => []) ++
    (match fieldNotNone profile "profileId" with
     | some v => [v]
     | none => [])
  let lastUsed := match call "get_device_last_used" [] with
    | .ok v => v
    | .error _ => .vdict []
  let upn1 := upn0 ++
    (match fieldNotNone lastUsed "userProfileNumber" with
     | some v => [v]
     | none => [])
  let device_ids1 := device_ids0 ++
    (match fieldNotNone lastUsed "deviceId" with
     | some v => [v]
     | none => [])
  let user_profile_numbers := dedupSort upn1
  let device_ids := dedupSort device_ids1
  let gears : List Val :=
    match user_profile_numbers with
    | [] => []
    | u :: _ =>
        match call "get_gear" [("userProfileNumber", u)] with
        | .error _ => []
        | .ok payload =>
            match payload with
            | .vlist gs => gs.filter isDictB
            | .vdict fs => (extract_items (.vdict fs)).filter isDictB
            | _ => []
  let gear_uuids0 := gears.filterMap (fun g => fieldTruthy g "uuid")
  let trainingPlans := match call "get_training_plans" [] with
    | .ok v => v
    | .error _ => .vdict []
  let plan_ids0 : List Val :=
    match dictGet trainingPlans "trainingPlanList" with
    | some (.vlist ps) => ps.filterMap (fun p =>
        if isDictB p then fieldNotNone p "trainingPlanId" else none)
    | _ => []
  { year := year
    start_date := ⟨year, 1, 1⟩
    end_date := ⟨year, 12, 31⟩
    dates := iter_year_dates year
    activity_ids := dedupSort activity_ids0
    workout_ids := dedupSort workout_ids0
    scheduled_workout_ids := dedupSort sched_ids0
    device_ids := device_ids
    user_profile_numbers := user_profile_numbers
    gear_uuids := dedupSort gear_uuids0
    plan_ids := dedupSort plan_ids0
    cached_method_data :=
      [("get_activities", .vlist activities),
       ("get_workouts", .vlist workouts),
       ("get_devices", devices),
       ("get_user_profile", profile),
       ("get_device_last_used", lastUsed),
       ("get_gear", .vlist gears),
       ("get_training_plans", trainingPlans)] }

/-! ### Call planning -/

/-- `run_special_method_calls`: the fixed per-method dispatch table. -/
def run_special_method_calls (method : String) (ctx : SeedContext) : List Kwargs :=
  let sd := isoDate ctx.start_date
  let ed := isoDate ctx.end_date
  if method = "get_lactate_threshold" then
    [[("latest", .vbool false), ("start_date", .vstr sd), ("end_date", .vstr ed),
      ("aggregation", .vstr "daily")]]
  else if method = "get_goals" then
    [[("status", .vstr "active"), ("start", .vint 0), ("limit", .vint 100)],
     [("status", .vstr "completed"), ("start", .vint 0), ("limit", .vint 100)]]
  else if method = "get_race_predictions" then
    [[("startdate", .vstr sd), ("enddate", .vstr ed), ("_type", .vstr "running")]]
  else if method = "get_progress_summary_between_dates" then
    [[("startdate", .vstr sd), ("enddate", .vstr ed), ("metric", .vstr "distance"),
      ("groupbyactivities", .vbool true)]]
  else []

/-- `ctx.get(seed_key, [])` for the id seed collections. -/
def ctxSeed (ctx : SeedContext) (key : String) : List Val :=
  if key = "activity_ids" then ctx.activity_ids
  else if key = "workout_ids" then ctx.workout_ids
  else if key = "scheduled_workout_ids" then ctx.scheduled_workout_ids
  else if key = "device_ids" then ctx.device_ids
  else if key = "user_profile_numbers" then ctx.user_profile_numbers
  else if key = "gear_uuids" then ctx.gear_uuids
  else if key = "plan_ids" then ctx.plan_ids
  else []

/-- The `for param, seed_key in ID_PARAM_TO_SEED_KEY.items()` loop of the
id-based branch: first declared parameter that maps to a seed table wins. -/
def idPlanGo (ctx : SeedContext) (params : List String) :
    List (String × String) → List Kwargs × Option String
  | [] => ([], some "id_param_not_mapped")
  | (param, seedKey) :: rest =>
      if params.contains param then
        let ids := ctxSeed ctx seedKey
        if ids.isEmpty then ([], some ("missing_seed:" ++ seedKey))
        else (ids.map (fun idv => [(param, idv)]), none)
      else idPlanGo ctx params rest

/-- `build_calls_for_method`: map call type and seed context to concrete
kwargs sets, or a skip reason.  In the `get_body_battery` override the
source re-parses `kwargs["startdate"]`/`kwargs["enddate"]` — which are
exactly the context's year bounds — back into dates before chunking. -/
def build_calls_for_method (method signature call_type : String)
    (ctx : SeedContext) (include_downloads : Bool) : List Kwargs × Option String :=
  let params := parse_signature_params signature
  if call_type = "download" && !include_downloads then ([], some "download_disabled")
  else if call_type = "noarg" then ([[]], none)
  else if call_type = "daily" then
    -- `params[0]` fallback is unreachable for a signature classified daily
    let date_param :=
      if params.contains "cdate" then "cdate"
      else if params.contains "fordate" then "fordate"
      else params.headD ""
    (ctx.dates.map (fun d => [(date_param, Val.vstr (isoDate d))]), none)
  else if call_type = "date_range" then
    let kw0 : Kwargs :=
      if params.contains "startdate" then [("startdate", .vstr (isoDate ctx.start_date))] else []
    let kw1 := kw0 ++
      (if params.contains "enddate" then [("enddate", .vstr (isoDate ctx.end_date))] else [])
    let kw2 := kw1 ++
      (if params.contains "start_date" then [("start_date", .vstr (isoDate ctx.start_date))] else [])
    let kw3 := kw2 ++
      (if params.contains "end_date" then [("end_date", .vstr (isoDate ctx.end_date))] else [])
    let kwargs := kw3 ++
      (if params.contains "start" && params.contains "end" then
        [("start", .vstr (isoDate ctx.start_date)), ("end", .vstr (isoDate ctx.end_date))]
       else [])
    if kwargs.isEmpty then ([], some "date_range_unresolved")
    else if method = "get_body_battery" && (lookupVal kwargs "startdate").isSome &&
        (lookupVal kwargs "enddate").isSome then
      ((chunk_date_range ctx.start_date ctx.end_date 31).map (fun w =>
        [("startdate", .vstr (isoDate w.1)), ("enddate", .vstr (isoDate w.2))]), none)
    else ([kwargs], none)
  else if call_type = "weekly" then
    let kw0 : Kwargs :=
      if params.contains "start" then [("start", .vstr (isoDate ctx.start_date))] else []
    let kw1 := kw0 ++
      (if params.contains "end" then [("end", .vstr (isoDate ctx.end_date))] else [])
    let kwargs := kw1 ++ (if params.contains "weeks" then [("weeks", Val.vint 52)] else [])
    ([kwargs], none)
  else if call_type = "paged" then
    -- paged calls are executed by the dedicated loop
    ([], none)
  else if call_type = "id_based" || call_type = "download" then
    idPlanGo ctx params ID_PARAM_TO_SEED_KEY
  else if call_type = "special" then
    let calls := run_special_method_calls method ctx
    if calls.isEmpty then
      if params.isEmpty then ([[]], none) else ([], some "special_unresolved")
    else (calls, none)
  else ([], some "unsupported_call_type")

/-! ### Envelopes and execution

Remote execution inside one method run is abstracted by an oracle giving,
for the k-th call this run issues, the outcome `safe_call` produced for it
(value or raised error) and the elapsed ticks recorded for bookkeeping. -/

/-- One method spec from the externally parsed catalog. -/
structure MethodSpec where
  sectionName : String
  section_slug : String
  method : String
  signature : String

/-- The `stats` block of an envelope. -/
structure Stats where
  attempted_calls : Nat
  success_calls : Nat
  failed_calls : Nat
  duration_seconds : Nat
deriving DecidableEq

/-- One success record: request and (serialised) response. -/
structure DataEntry where
  request : Kwargs
  response : Val

/-- One error record: request (absent for skip reasons and synthetic
failures) and error text. -/
structure ErrEntry where
  request : Option Kwargs
  error : String

/-- The persisted per-method envelope. -/
structure Envelope where
  method : String
  sectionName : String
  year : Nat
  call_type : String
  status : String
  request_args : List Kwargs
  data : List DataEntry
  errors : List ErrEntry
  stats : Stats

/-- Outcome oracle for the calls one method run issues, in issue order. -/
abbrev ExecOracle := Nat → Except String Val × Nat

/-- One executed call: request, outcome, elapsed ticks. -/
structure Chunk where
  req : Kwargs
  res : Except String Val
  took : Nat

/-- `get_completed_request_keys`: canonical keys of every successful
request already recorded. -/
def get_completed_request_keys (env : Envelope) : List String :=
  env.data.map (fun item => request_key item.request)

/-- A fresh `pending` envelope. -/
def freshEnvelope (spec : MethodSpec) (year : Nat) (call_type : String) : Envelope :=
  { method := spec.method
    sectionName := spec.sectionName
    year := year
    call_type := call_type
    status := "pending"
    request_args := []
    data := []
    errors := []
    stats := ⟨0, 0, 0, 0⟩ }

/-- Adopt-or-create plus the stat resynchronisation every run performs:
a prior envelope for the same method is reused with identification fields
refreshed, anything else starts fresh; then the counters are recomputed
from the list lengths. -/
def initEnvelope (spec : MethodSpec) (year : Nat) (call_type : String)
    (existing : Option Envelope) : Envelope :=
  let base :=
    match existing with
    | some e =>
        if e.method = spec.method then
          { e with method := spec.method, sectionName := spec.sectionName,
                   year := year, call_type := call_type }
        else freshEnvelope spec year call_type
    | none => freshEnvelope spec year call_type
  { base with stats :=
      { attempted_calls := base.request_args.length
        success_calls := base.data.length
        failed_calls := base.errors.length
        duration_seconds := base.stats.duration_seconds } }

/-- Record one call outcome: append the request, append to exactly one of
`data`/`errors`, recompute the counters from the list lengths, accumulate
duration.  This is the shared bookkeeping of the sequential per-call loop
and of `on_paged_chunk_done` (the response serialisation is the identity on
modelled values; each such step is followed by a whole-envelope rewrite to
disk, which is value-transparent here). -/
def applyChunk (env : Envelope) (c : Chunk) : Envelope :=
  let env1 := { env with request_args := env.request_args ++ [c.req] }
  let env2 :=
    match c.res with
    | .ok v => { env1 with data := env1.data ++ [DataEntry.mk c.req v] }
    | .error e => { env1 with errors := env1.errors ++ [ErrEntry.mk (some c.req) e] }
  { env2 with stats :=
      { attempted_calls := env2.request_args.length
        success_calls := env2.data.length
        failed_calls := env2.errors.length
        duration_seconds := env2.stats.duration_seconds + c.took } }

/-- The `cached_method_data` payload for a method, when present. -/
def cachedFor (ctx : SeedContext) (method : String) : Option Val :=
  lookupVal ctx.cached_method_data method

/-- `cached_data` when it is outside `(None, {}, [])`, else nothing. -/
def cacheValue (ctx : SeedContext) (method : String) : Option Val :=
  match cachedFor ctx method with
  | some v =>
      if valBeq v .vnull || valBeq v (.vdict []) || valBeq v (.vlist []) then none
      else some v
  | none => none

/-- The synthetic request recorded when a bootstrap payload is adopted. -/
def seedCacheReq : Kwargs := [("source", .vstr "seed_cache")]

/-- Adopt a bootstrap-cached payload as one synthetic success record and
mark the envelope `success` (`failed_calls` is left as it was). -/
def adoptCache (env : Envelope) (cached : Val) : Envelope :=
  let env1 := { env with request_args := env.request_args ++ [seedCacheReq],
                         data := env.data ++ [DataEntry.mk seedCacheReq cached] }
  { env1 with status := "success",
              stats := { env1.stats with
                attempted_calls := env1.request_args.length,
                success_calls := env1.data.length } }

/-- Final status on the paged path (no `skipped` case). -/
def deriveStatusPaged (s : Stats) : String :=
  if 0 < s.success_calls ∧ s.failed_calls = 0 then "success"
  else if 0 < s.success_calls then "partial"
  else "failed"

/-- Final status on the plan path. -/
def deriveStatusFull (s : Stats) : String :=
  if 0 < s.success_calls ∧ s.failed_calls = 0 then "success"
  else if 0 < s.success_calls then "partial"
  else if s.attempted_calls = 0 then "skipped"
  else "failed"

/-- Base kwargs for a paged method (`extra`). -/
def pagedExtra (method : String) : Kwargs :=
  let e0 : Kwargs := []
  let e1 := if method = "get_activities" then setK e0 "limit" (.vint 100) else e0
  if method = "get_workouts" then setK e1 "limit" (.vint 100) else e1

/-- `int(base_kwargs.get("limit", 100))`. -/
def limitOf (kw : Kwargs) : Int :=
  match lookupVal kw "limit" with
  | some (.vint n) => n
  | _ => 100

/-- `start` cursors of previously completed pages. -/
def completedStarts (env : Envelope) : List Int :=
  env.data.filterMap (fun item =>
    match lookupVal item.request "start" with
    | some (.vint n) => some n
    | _ => none)

/-- Python `max` on a list (callers guard non-emptiness). -/
def maxIntList : List Int → Int
  | [] => 0
  | x :: xs => xs.foldl max x

/-- Resume cursor: one page past the highest previously completed `start`,
or zero when nothing was completed. -/
def resumeStart (env : Envelope) (extra : Kwargs) : Int :=
  if env.data.isEmpty then 0
  else
    let starts := completedStarts env
    if starts.isEmpty then 0 else maxIntList starts + limitOf extra

/-- The `while page_start < 20000` loop of `execute_paged_method`.  Fuel
20000 covers the loop exactly for every positive page size (the cursor
advances by `limit ≥ 1` per continuing iteration).  Each iteration records
exactly one chunk outcome; a failing page records its error (with zero
elapsed ticks, as the callback receives `0.0` there) and stops. -/
def pagedGo (oracle : ExecOracle) (base : Kwargs) (limit : Int) :
    Nat → Int → Nat → List Chunk
  | 0, _, _ => []
  | fuel + 1, pageStart, idx =>
      if pageStart < 20000 then
        let req := setK (setK base "start" (.vint pageStart)) "limit" (.vint limit)
        match oracle idx with
        | (.ok v, took) =>
            let items := extract_items v
            if items.isEmpty then [⟨req, .ok v, took⟩]
            else if (items.length : Int) < limit then [⟨req, .ok v, took⟩]
            else ⟨req, .ok v, took⟩ :: pagedGo oracle base limit fuel (pageStart + limit) (idx + 1)
        | (.error e, _) => [⟨req, .error e, 0⟩]
      else []

/-- `execute_paged_method(client, method, base_kwargs, start_from, ...)`:
the chunk outcomes it reports to its callback, in order. -/
def execute_paged_method (oracle : ExecOracle) (base : Kwargs) (startFrom : Int) :
    List Chunk :=
  pagedGo oracle base (limitOf base) 20000 (max 0 startFrom) 0

/-- Outcomes of the sequential per-call loop over the pending plan. -/
def callOutcomes (oracle : ExecOracle) : Nat → List Kwargs → List Chunk
  | _, [] => []
  | i, kw :: rest =>
      let r := oracle i
      ⟨kw, r.1, r.2⟩ :: callOutcomes oracle (i + 1) rest

/-- Mark an envelope skipped with a recorded (request-less) reason and
resynchronise the counters, as the skip branch does. -/
def skipEnvelope (env : Envelope) (reason : String) : Envelope :=
  let env1 := { env with status := "skipped", errors := env.errors ++ [ErrEntry.mk none reason] }
  { env1 with stats := { env1.stats with
      attempted_calls := env1.request_args.length,
      success_calls := env1.data.length,
      failed_calls := env1.errors.length } }

/-- The paged branch of `execute_method_for_year`: resume cursor from prior
pages, run the paged loop, fold each chunk into the envelope, derive the
terminal status.  Returns the envelope and the calls issued. -/
def pagedPath (oracle : ExecOracle) (method : String) (env0 : Envelope) :
    Envelope × List (String × Kwargs) :=
  let extra := pagedExtra method
  let outs := execute_paged_method oracle extra (resumeStart env0 extra)
  let env1 := outs.foldl applyChunk env0
  ({ env1 with status := deriveStatusPaged env1.stats },
   outs.map (fun c => (method, c.req)))

/-- The plan branch of `execute_method_for_year`: build the plan, skip with
a reason when it is empty, otherwise execute the calls whose canonical key
is not already completed, then derive the final status.  Returns the
envelope and the calls issued. -/
def planPath (oracle : ExecOracle) (method signature call_type : String)
    (ctx : SeedContext) (include_downloads : Bool) (env0 : Envelope) :
    Envelope × List (String × Kwargs) :=
  let plan := build_calls_for_method method signature call_type ctx include_downloads
  if plan.2.isSome && plan.1.isEmpty then
    (skipEnvelope env0 (plan.2.getD ""), [])
  else
    let completed := get_completed_request_keys env0
    let pending := plan.1.filter (fun kw => !(completed.contains (request_key kw)))
    let outs := callOutcomes oracle 0 pending
    let env1 := outs.foldl applyChunk env0
    ({ env1 with status := deriveStatusFull env1.stats },
     pending.map (fun kw => (method, kw)))

/-- `execute_method_for_year`: classify, adopt or create the envelope,
resynchronise counters, then either adopt a bootstrap-cached payload (when
the envelope has no successes yet), run the paged loop, or run the planned
calls.  Returns the final envelope together with every remote call issued. -/
def execute_method_for_year (oracle : ExecOracle) (spec : MethodSpec)
    (ctx : SeedContext) (include_downloads : Bool) (existing : Option Envelope) :
    Envelope × List (String × Kwargs) :=
  let call_type := classify_call_type spec.method spec.signature
  let env0 := initEnvelope spec ctx.year call_type existing
  if (cacheValue ctx spec.method).isSome ∧ env0.stats.success_calls = 0 then
    (adoptCache env0 ((cacheValue ctx spec.method).getD .vnull), [])
  else if call_type = "paged" then pagedPath oracle spec.method env0
  else planPath oracle spec.method spec.signature call_type ctx include_downloads env0

/-! ### Per-method orchestration and the manifest -/

/-- `run_method` without its outermost catch-all handler (the synthetic
envelope that handler builds is `build_failed_envelope` below): load-skip
when a prior envelope is already terminal, else execute (resuming when a
readable prior envelope exists).  `stored` is what `read_json_if_exists`
yielded; `fileExists` is the `output_file.exists()` test.  Returns the
envelope and the remote calls issued. -/
def run_method (oracle : ExecOracle) (spec : MethodSpec) (ctx : SeedContext)
    (include_downloads : Bool) (overwrite fileExists : Bool)
    (stored : Option Envelope) : Envelope × List (String × Kwargs) :=
  if fileExists && !overwrite then
    match stored with
    | some e =>
        if e.status = "success" ∨ e.status = "skipped" then (e, [])
        else execute_method_for_year oracle spec ctx include_downloads (some e)
    | none => execute_method_for_year oracle spec ctx include_downloads none
  else execute_method_for_year oracle spec ctx include_downloads none

/-- The synthetic envelope `run_method` writes when an unexpected
per-method exception is caught: no attempts, no data, one request-less
error entry, `failed_calls = 1`. -/
def build_failed_envelope (spec : MethodSpec) (year : Nat) (call_type : String)
    (excMsg : String) : Envelope :=
  { method := spec.method
    sectionName := spec.sectionName
    year := year
    call_type := call_type
    status := "failed"
    request_args := []
    data := []
    errors := [ErrEntry.mk none excMsg]
    stats := ⟨0, 0, 1, 0⟩ }

/-- One manifest entry. -/
structure ManifestItem where
  method : String
  sectionName : String
  section_slug : String
  call_type : String
  status : String
  output_file : String
  stats : Stats
  error_count : Nat

/-- The manifest entry `run_method` reports for an envelope. -/
def manifestItemOf (spec : MethodSpec) (env : Envelope) : ManifestItem :=
  { method := spec.method
    sectionName := spec.sectionName
    section_slug := spec.section_slug
    call_type := env.call_type
    status := env.status
    output_file := "data/" ++ spec.section_slug ++ "/" ++ spec.method ++ ".json"
    stats := env.stats
    error_count := env.errors.length }

/-- The scheduling filter of `collect_year_data`: section filter (inactive
when the selection is empty, as Python truthiness makes it) and the fixed
excluded-method set. -/
def keepSpec (selected : List String) (spec : MethodSpec) : Bool :=
  (selected.isEmpty || selected.contains spec.section_slug) &&
    !(EXCLUDED_METHODS.contains spec.method)

/-- `indexed_specs`: the scheduled methods with their original positions. -/
def indexed_specs (methods : List MethodSpec) (selected : List String) :
    List (Nat × MethodSpec) :=
  methods.enum.filter (fun p => keepSpec selected p.2)

/-- The year manifest (the wall-clock `generated_at` stamp is outside the
model). -/
structure Manifest where
  year : Nat
  total_methods : Nat
  status_counts : List (String × Nat)
  methods : List ManifestItem

/-- `status_counts[status] = status_counts.get(status, 0) + 1`. -/
def bumpStatus : List (String × Nat) → String → List (String × Nat)
  | [], s => [(s, 1)]
  | (k, n) :: rest, s => if k = s then (k, n + 1) :: rest else (k, n) :: bumpStatus rest s

/-- The status histogram, seeded with the five known statuses. -/
def countStatuses (items : List ManifestItem) : List (String × Nat) :=
  items.foldl (fun acc it => bumpStatus acc it.status)
    [("success", 0), ("partial", 0), ("failed", 0), ("skipped", 0), ("pending", 0)]

/-- `collect_year_data` on the sequential path (one worker; the pool path
reassembles its results into this same original order before the manifest
is built).  `oracleFor`, `fileExists` and `stored` are keyed by the spec's
original index; under `overwrite` the data root was deleted, which
`run_method`'s `exists and not overwrite` test already subsumes. -/
def collect_year_data (seedCall : Client) (oracleFor : Nat → ExecOracle)
    (methods : List MethodSpec) (year : Nat)
    (overwrite include_downloads : Bool) (selected : List String)
    (fileExists : Nat → Bool) (stored : Nat → Option Envelope) : Manifest :=
  let ctx := build_seed_context seedCall year
  let items := (indexed_specs methods selected).map (fun p =>
    manifestItemOf p.2
      (run_method (oracleFor p.1) p.2 ctx include_downloads overwrite
        (fileExists p.1) (stored p.1)).1)
  { year := year
    total_methods := items.length
    status_counts := countStatuses items
    methods := items }

/-- The methods `collect_year_data` actually runs (and writes envelopes
for), in order: exactly the scheduled ones. -/
def collect_executed_methods (methods : List MethodSpec) (selected : List String) :
    List String :=
  (indexed_specs methods selected).map (fun p => p.2.method)

/-! ## Invariant layer: counters, status table, and the shape of executions -/

/-- The three counters agree with the list lengths. -/
def statsSynced (e : Envelope) : Prop :=
  e.stats.attempted_calls = e.request_args.length ∧
  e.stats.success_calls = e.data.length ∧
  e.stats.failed_calls = e.errors.length

/-- Counters synced and no unattempted outcome: every recorded outcome came
from an attempted call. -/
def goodStats (e : Envelope) : Prop :=
  statsSynced e ∧ e.request_args.length = e.data.length + e.errors.length

/-- The spec's status derivation table, on the status string and counters. -/
def statusTableP (st : String) (s : Stats) : Prop :=
  (st = "success" ↔ 0 < s.success_calls ∧ s.failed_calls = 0) ∧
  (st = "partial" ↔ 0 < s.success_calls ∧ 0 < s.failed_calls) ∧
  (st = "failed" ↔ 0 < s.attempted_calls ∧ s.success_calls = 0) ∧
  (st = "skipped" ↔ s.attempted_calls = 0)

/-- The status table for an envelope. -/
def statusTable (e : Envelope) : Prop := statusTableP e.status e.stats

instance (st : String) (s : Stats) : Decidable (statusTableP st s) := by
  unfold statusTableP; infer_instance

instance (e : Envelope) : Decidable (statusTable e) := by
  unfold statusTable; infer_instance

/-- Success records an outcome list contributes. -/
def successesOf : List Chunk → List DataEntry
  | [] => []
  | c :: rest =>
      match c.res with
      | .ok v => DataEntry.mk c.req v :: successesOf rest
      | .error _ => successesOf rest

/-- Error records an outcome list contributes. -/
def errorsOf : List Chunk → List ErrEntry
  | [] => []
  | c :: rest =>
      match c.res with
      | .ok _ => errorsOf rest
      | .error m => ErrEntry.mk (some c.req) m :: errorsOf rest

theorem successesOf_errorsOf_length (outs : List Chunk) :
    (successesOf outs).length + (errorsOf outs).length = outs.length := by
  induction outs with
  | nil => rfl
  | cons c rest ih =>
      cases h : c.res <;> simp [successesOf, errorsOf, h] <;> omega

theorem applyChunk_fields (e : Envelope) (c : Chunk) :
    (applyChunk e c).request_args = e.request_args ++ [c.req] ∧
    (applyChunk e c).data = e.data ++ successesOf [c] ∧
    (applyChunk e c).errors = e.errors ++ errorsOf [c] ∧
    (applyChunk e c).method = e.method ∧
    (applyChunk e c).status = e.status ∧
    (applyChunk e c).call_type = e.call_type := by
  cases h : c.res <;> simp [applyChunk, successesOf, errorsOf, h]

theorem applyChunk_synced (e : Envelope) (c : Chunk) :
    statsSynced (applyChunk e c) := by
  cases h : c.res <;> simp [applyChunk, statsSynced, h]

theorem foldl_applyChunk_fields (outs : List Chunk) : ∀ e : Envelope,
    (outs.foldl applyChunk e).request_args = e.request_args ++ outs.map Chunk.req ∧
    (outs.foldl applyChunk e).data = e.data ++ successesOf outs ∧
    (outs.foldl applyChunk e).errors = e.errors ++ errorsOf outs ∧
    (outs.foldl applyChunk e).method = e.method ∧
    (outs.foldl applyChunk e).status = e.status ∧
    (outs.foldl applyChunk e).call_type = e.call_type := by
  induction outs with
  | nil => intro e; simp [successesOf, errorsOf]
  | cons c rest ih =>
      intro e
      have h1 := applyChunk_fields e c
      have h2 := ih (applyChunk e c)
      refine ⟨?_, ?_, ?_, ?_, ?_, ?_⟩ <;>
        simp only [List.foldl_cons] at h2 ⊢ <;>
        cases h : c.res <;>
        simp_all [successesOf, errorsOf, applyChunk]

theorem foldl_applyChunk_synced (outs : List Chunk) (e : Envelope)
    (he : statsSynced e) : statsSynced (outs.foldl applyChunk e) := by
  induction outs generalizing e with
  | nil => exact he
  | cons c rest ih => exact ih (applyChunk e c) (applyChunk_synced e c)

theorem foldl_applyChunk_goodStats (outs : List Chunk) (e : Envelope)
    (he : goodStats e) : goodStats (outs.foldl applyChunk e) := by
  obtain ⟨hs, hsum⟩ := he
  refine ⟨foldl_applyChunk_synced outs e hs, ?_⟩
  obtain ⟨h1, h2, h3, -⟩ := foldl_applyChunk_fields outs e
  have := successesOf_errorsOf_length outs
  simp [h1, h2, h3]
  omega

theorem initEnvelope_synced (spec : MethodSpec) (year : Nat) (ct : String)
    (ex : Option Envelope) : statsSynced (initEnvelope spec year ct ex) := by
  unfold initEnvelope statsSynced
  cases ex <;> simp

theorem initEnvelope_none (spec : MethodSpec) (year : Nat) (ct : String) :
    initEnvelope spec year ct none = freshEnvelope spec year ct := by
  simp [initEnvelope, freshEnvelope]

instance (e : Envelope) : Decidable (statsSynced e) := by
  unfold statsSynced; infer_instance

instance (e : Envelope) : Decidable (goodStats e) := by
  unfold goodStats; infer_instance

theorem applyChunk_goodStats (e : Envelope) (c : Chunk) (he : goodStats e) :
    goodStats (applyChunk e c) := by
  obtain ⟨-, hsum⟩ := he
  refine ⟨applyChunk_synced e c, ?_⟩
  cases h : c.res <;> simp [applyChunk, h] <;> omega

theorem freshEnvelope_goodStats (spec : MethodSpec) (year : Nat) (ct : String) :
    goodStats (freshEnvelope spec year ct) := by
  refine ⟨⟨rfl, rfl, rfl⟩, rfl⟩

/-- The status table holds after the paged derivation whenever at least one
call was attempted and every outcome came from an attempted call. -/
theorem statusTableP_paged (s : Stats)
    (h : s.attempted_calls = s.success_calls + s.failed_calls)
    (h0 : s.attempted_calls ≠ 0) :
    statusTableP (deriveStatusPaged s) s := by
  unfold deriveStatusPaged statusTableP
  split_ifs with h1 h2
  · exact ⟨iff_of_true rfl h1,
      iff_of_false (by decide) (fun hx => by omega),
      iff_of_false (by decide) (fun hx => by omega),
      iff_of_false (by decide) (by omega)⟩
  · have hfa : 0 < s.failed_calls := by
      rcases Nat.eq_zero_or_pos s.failed_calls with hz | hp
      · exact absurd ⟨h2, hz⟩ h1
      · exact hp
    exact ⟨iff_of_false (by decide) h1,
      iff_of_true rfl ⟨h2, hfa⟩,
      iff_of_false (by decide) (fun hx => by omega),
      iff_of_false (by decide) (by omega)⟩
  · have hsu : s.success_calls = 0 := by omega
    exact ⟨iff_of_false (by decide) (fun hx => by omega),
      iff_of_false (by decide) (fun hx => by omega),
      iff_of_true rfl ⟨by omega, hsu⟩,
      iff_of_false (by decide) (by omega)⟩

/-- The status table holds after the full derivation whenever every
recorded outcome came from an attempted call. -/
theorem statusTableP_full (s : Stats)
    (h : s.attempted_calls = s.success_calls + s.failed_calls) :
    statusTableP (deriveStatusFull s) s := by
  unfold deriveStatusFull statusTableP
  split_ifs with h1 h2 h3
  · exact ⟨iff_of_true rfl h1,
      iff_of_false (by decide) (fun hx => by omega),
      iff_of_false (by decide) (fun hx => by omega),
      iff_of_false (by decide) (by omega)⟩
  · have hfa : 0 < s.failed_calls := by
      rcases Nat.eq_zero_or_pos s.failed_calls with hz | hp
      · exact absurd ⟨h2, hz⟩ h1
      · exact hp
    exact ⟨iff_of_false (by decide) h1,
      iff_of_true rfl ⟨h2, hfa⟩,
      iff_of_false (by decide) (fun hx => by omega),
      iff_of_false (by decide) (by omega)⟩
  · exact ⟨iff_of_false (by decide) (fun hx => by omega),
      iff_of_false (by decide) (fun hx => by omega),
      iff_of_false (by decide) (fun hx => by omega),
      iff_of_true rfl h3⟩
  · exact ⟨iff_of_false (by decide) (fun hx => by omega),
      iff_of_false (by decide) (fun hx => by omega),
      iff_of_true rfl ⟨by omega, by omega⟩,
      iff_of_false (by decide) h3⟩

/-- Branch selection: the seed-cache adoption path. -/
theorem exec_cache_branch (oracle : ExecOracle) (spec : MethodSpec)
    (ctx : SeedContext) (incl : Bool) (ex : Option Envelope)
    (h : (cacheValue ctx spec.method).isSome ∧
      (initEnvelope spec ctx.year (classify_call_type spec.method spec.signature) ex).stats.success_calls = 0) :
    execute_method_for_year oracle spec ctx incl ex =
      (adoptCache
        (initEnvelope spec ctx.year (classify_call_type spec.method spec.signature) ex)
        ((cacheValue ctx spec.method).getD .vnull), []) := by
  unfold execute_method_for_year
  rw [if_pos h]

/-- Branch selection: the paged path. -/
theorem exec_paged_branch (oracle : ExecOracle) (spec : MethodSpec)
    (ctx : SeedContext) (incl : Bool) (ex : Option Envelope)
    (hc : ¬ ((cacheValue ctx spec.method).isSome ∧
      (initEnvelope spec ctx.year (classify_call_type spec.method spec.signature) ex).stats.success_calls = 0))
    (hp : classify_call_type spec.method spec.signature = "paged") :
    execute_method_for_year oracle spec ctx incl ex =
      pagedPath oracle spec.method
        (initEnvelope spec ctx.year (classify_call_type spec.method spec.signature) ex) := by
  unfold execute_method_for_year
  rw [if_neg hc, if_pos hp]

/-- Branch selection: the plan path. -/
theorem exec_plan_branch (oracle : ExecOracle) (spec : MethodSpec)
    (ctx : SeedContext) (incl : Bool) (ex : Option Envelope)
    (hc : ¬ ((cacheValue ctx spec.method).isSome ∧
      (initEnvelope spec ctx.year (classify_call_type spec.method spec.signature) ex).stats.success_calls = 0))
    (hp : classify_call_type spec.method spec.signature ≠ "paged") :
    execute_method_for_year oracle spec ctx incl ex =
      planPath oracle spec.method spec.signature
        (classify_call_type spec.method spec.signature) ctx incl
        (initEnvelope spec ctx.year (classify_call_type spec.method spec.signature) ex) := by
  unfold execute_method_for_year
  rw [if_neg hc, if_neg hp]

/-- A paged iteration with the cursor under the ceiling records at least
one chunk. -/
theorem pagedGo_ne_nil (oracle : ExecOracle) (base : Kwargs) (limit : Int)
    (fuel : Nat) (ps : Int) (idx : Nat) (hps : ps < 20000) :
    pagedGo oracle base limit (fuel + 1) ps idx ≠ [] := by
  unfold pagedGo
  rw [if_pos hps]
  rcases h : oracle idx with ⟨res, took⟩
  cases res <;> simp <;> split_ifs <;> simp

theorem goodStats_sum (e : Envelope) (he : goodStats e) :
    e.stats.attempted_calls = e.stats.success_calls + e.stats.failed_calls := by
  obtain ⟨⟨h1, h2, h3⟩, h4⟩ := he
  omega

theorem resumeStart_fresh (spec : MethodSpec) (year : Nat) (ct : String)
    (extra : Kwargs) : resumeStart (freshEnvelope spec year ct) extra = 0 := by
  simp [resumeStart, freshEnvelope]

theorem statusTable_updateStatus (e : Envelope) (st : String) :
    statusTable { e with status := st } ↔ statusTableP st e.stats := Iff.rfl

/-! ## C1 — status derivation table -/

/-- C1 (counterexample setting): an empty seed context skeleton. -/
def emptySeedCtx (year : Nat) : SeedContext :=
  { year := year
    start_date := ⟨year, 1, 1⟩
    end_date := ⟨year, 12, 31⟩
    dates := []
    activity_ids := []
    workout_ids := []
    scheduled_workout_ids := []
    device_ids := []
    user_profile_numbers := []
    gear_uuids := []
    plan_ids := []
    cached_method_data := [] }

/-- A seed context whose bootstrap cached a non-empty `get_devices` payload. -/
def c1Ctx : SeedContext :=
  { emptySeedCtx 2024 with
      cached_method_data := [("get_devices", .vlist [.vint 1])] }

/-- A prior program-producible envelope for `get_devices`: one failed run
(one recorded error, no successes). -/
def c1Prior : Envelope :=
  { method := "get_devices"
    sectionName := "Device & Technical"
    year := 2024
    call_type := "noarg"
    status := "failed"
    request_args := []
    data := []
    errors := [ErrEntry.mk none "network down"]
    stats := ⟨0, 0, 1, 0⟩ }

/-- The `get_devices` method spec. -/
def c1Spec : MethodSpec :=
  ⟨"Device & Technical", "device_technical", "get_devices", "get_devices()"⟩

/-- An execution oracle that is never consulted. -/
def unusedOracle : ExecOracle := fun _ => (.error "unused", 0)

/-- C1, counterexample: resuming a failed envelope for a method with a
bootstrap-cached payload adopts the cache and marks the envelope `success`
while `failed_calls = 1` remains, so the produced envelope violates the
derivation table (`success` despite `failed_calls ≠ 0`). -/
theorem c1_counterexample :
    (execute_method_for_year unusedOracle c1Spec c1Ctx true (some c1Prior)).1.status
        = "success" ∧
    (execute_method_for_year unusedOracle c1Spec c1Ctx true (some c1Prior)).1.stats.failed_calls
        = 1 ∧
    ¬ statusTable (execute_method_for_year unusedOracle c1Spec c1Ctx true (some c1Prior)).1 := by
  refine ⟨rfl, rfl, ?_⟩
  decide

/-- C1, amended: every envelope produced by executing a method for a year
from a fresh start (no prior envelope adopted) satisfies the status
derivation table — `success` iff `success_calls > 0 ∧ failed_calls = 0`,
`partial` iff `success_calls > 0 ∧ failed_calls > 0`, `failed` iff
`attempted_calls > 0 ∧ success_calls = 0`, `skipped` iff
`attempted_calls = 0` — including on the paged execution path (where the
loop always attempts at least one page, so `skipped` cannot arise). -/
theorem c1_amended_fresh_status_table (oracle : ExecOracle) (spec : MethodSpec)
    (ctx : SeedContext) (incl : Bool) :
    statusTable (execute_method_for_year oracle spec ctx incl none).1 := by
  by_cases hc : (cacheValue ctx spec.method).isSome ∧
      (initEnvelope spec ctx.year (classify_call_type spec.method spec.signature) none).stats.success_calls = 0
  · rw [exec_cache_branch oracle spec ctx incl none hc, initEnvelope_none]
    simp [statusTable, statusTableP, adoptCache, freshEnvelope]
  · by_cases hp : classify_call_type spec.method spec.signature = "paged"
    · rw [exec_paged_branch oracle spec ctx incl none hc hp, initEnvelope_none]
      simp only [pagedPath, resumeStart_fresh]
      rw [statusTable_updateStatus]
      set outs := execute_paged_method oracle (pagedExtra spec.method) 0 with houts
      have hne : outs ≠ [] := by
        rw [houts]
        unfold execute_paged_method
        rw [show (20000 : Nat) = 19999 + 1 from rfl]
        apply pagedGo_ne_nil
        simp
      have hgs := foldl_applyChunk_goodStats outs _
        (freshEnvelope_goodStats spec ctx.year (classify_call_type spec.method spec.signature))
      obtain ⟨hreq, -, -, -, -, -⟩ :=
        foldl_applyChunk_fields outs
          (freshEnvelope spec ctx.year (classify_call_type spec.method spec.signature))
      apply statusTableP_paged _ (goodStats_sum _ hgs)
      obtain ⟨⟨h1, -, -⟩, -⟩ := hgs
      rw [h1, hreq]
      simpa [freshEnvelope] using hne
    · rw [exec_plan_branch oracle spec ctx incl none hc hp, initEnvelope_none]
      simp only [planPath]
      split_ifs with hskip
      · simp [statusTable, statusTableP, skipEnvelope, freshEnvelope]
      · rw [statusTable_updateStatus]
        apply statusTableP_full
        apply goodStats_sum
        apply foldl_applyChunk_goodStats
        exact freshEnvelope_goodStats spec ctx.year
          (classify_call_type spec.method spec.signature)

/-! ## C2 — per-step bookkeeping invariant -/

/-- One execution step records the call in `request_args` and in exactly one
of `data` (on success) or `errors` (on failure), never both. -/
def stepExactlyOne (e : Envelope) (c : Chunk) : Prop :=
  (applyChunk e c).request_args = e.request_args ++ [c.req] ∧
  ((∃ v, c.res = .ok v ∧
      (applyChunk e c).data = e.data ++ [DataEntry.mk c.req v] ∧
      (applyChunk e c).errors = e.errors) ∨
   (∃ m, c.res = .error m ∧
      (applyChunk e c).errors = e.errors ++ [ErrEntry.mk (some c.req) m] ∧
      (applyChunk e c).data = e.data))

/-- The invariant along a whole execution: after every step the counters
match the lists and `success_calls + failed_calls = attempted_calls`
(hence `≤`), and each step lands in exactly one of `data`/`errors`. -/
def traceInv (e : Envelope) : List Chunk → Prop
  | [] => True
  | c :: rest => goodStats (applyChunk e c) ∧ stepExactlyOne e c ∧
      traceInv (applyChunk e c) rest

/-- The generic spec of `specFullName`-style no-argument methods, shared by
concrete witnesses below. -/
def specFullName : MethodSpec :=
  ⟨"User & Profile", "user_profile", "get_full_name", "get_full_name()"⟩

/-- C2, amended: a fresh envelope satisfies the counter invariant, and from
any envelope satisfying it, every execution step (shared by the sequential
loop and the paged callback, both folds of `applyChunk`) preserves
`success_calls + failed_calls = attempted_calls ≤ attempted_calls` and
records the attempted call in exactly one of `data`/`errors` — whereas
skipped envelopes and the synthetic per-method-failure envelope instead
carry a request-less error entry, so there `failed_calls` exceeds
`attempted_calls` (see the counterexample). -/
theorem c2_amended_step_invariant (spec : MethodSpec) (year : Nat) (ct : String)
    (outs : List Chunk) :
    goodStats (freshEnvelope spec year ct) ∧
    ∀ e : Envelope, goodStats e → traceInv e outs := by
  refine ⟨freshEnvelope_goodStats spec year ct, ?_⟩
  induction outs with
  | nil => intro e _; trivial
  | cons c rest ih =>
      intro e he
      have h1 := applyChunk_goodStats e c he
      refine ⟨h1, ⟨?_, ?_⟩, ih _ h1⟩
      · cases h : c.res <;> simp [applyChunk, h]
      · cases h : c.res with
        | error m =>
            exact Or.inr ⟨m, rfl, by simp [applyChunk, h], by simp [applyChunk, h]⟩
        | ok v =>
            exact Or.inl ⟨v, rfl, by simp [applyChunk, h], by simp [applyChunk, h]⟩

/-- C2, counterexample: the synthetic envelope built when an unexpected
per-method exception is caught has `failed_calls = 1` with
`attempted_calls = 0`, violating
`success_calls + failed_calls ≤ attempted_calls`. -/
theorem c2_counterexample :
    (build_failed_envelope specFullName 2024 "noarg" "boom").stats.failed_calls = 1 ∧
    (build_failed_envelope specFullName 2024 "noarg" "boom").stats.attempted_calls = 0 ∧
    ¬ ((build_failed_envelope specFullName 2024 "noarg" "boom").stats.success_calls +
        (build_failed_envelope specFullName 2024 "noarg" "boom").stats.failed_calls ≤
        (build_failed_envelope specFullName 2024 "noarg" "boom").stats.attempted_calls) := by
  exact ⟨rfl, rfl, by decide⟩

/-- Concrete outcomes: one success, then one failure. -/
def c2Outs : List Chunk :=
  [⟨[("cdate", .vstr "2024-01-01")], .ok (.vint 1), 2⟩,
   ⟨[("cdate", .vstr "2024-01-02")], .error "HTTP Error 500", 1⟩]

/-- C2, witness: the amended invariant at a concrete fresh envelope and a
concrete two-step execution. -/
theorem c2_witness : traceInv (freshEnvelope specFullName 2024 "daily") c2Outs :=
  (c2_amended_step_invariant specFullName 2024 "daily" c2Outs).2
    (freshEnvelope specFullName 2024 "daily") (by decide)

/-! ## C3 — idempotence of terminal envelopes -/

/-- C3: re-running the harvest on a method whose persisted envelope is
already `success` or `skipped`, without overwrite, issues zero remote calls
and returns that envelope unchanged. -/
theorem c3_terminal_idempotent (oracle : ExecOracle) (spec : MethodSpec)
    (ctx : SeedContext) (incl : Bool) (e : Envelope)
    (hstatus : e.status = "success" ∨ e.status = "skipped") :
    run_method oracle spec ctx incl false true (some e) = (e, []) := by
  unfold run_method
  simp [hstatus]

/-- A terminal persisted envelope. -/
def c3Env : Envelope :=
  { method := "get_full_name"
    sectionName := "User & Profile"
    year := 2024
    call_type := "noarg"
    status := "success"
    request_args := [[]]
    data := [DataEntry.mk [] (.vstr "tester")]
    errors := []
    stats := ⟨1, 1, 0, 0⟩ }

/-- C3, witness: at a concrete terminal envelope, re-running returns it
unchanged with zero remote calls. -/
theorem c3_witness :
    (c3Env.status = "success" ∨ c3Env.status = "skipped") ∧
    run_method unusedOracle specFullName (emptySeedCtx 2024) true false true
      (some c3Env) = (c3Env, []) :=
  ⟨Or.inl rfl,
   c3_terminal_idempotent unusedOracle specFullName (emptySeedCtx 2024) true c3Env
     (Or.inl rfl)⟩

/-! ## C6 — the retry wrapper -/

theorem safeCallGo_count_le (attempt : Nat → Except String Val) (cost : Nat → Nat) :
    ∀ r i el last, (safeCallGo attempt cost i el r last).2 ≤ r := by
  intro r
  induction r with
  | zero => intro i el last; simp [safeCallGo]
  | succ r ih =>
      intro i el last
      unfold safeCallGo
      cases h : attempt i with
      | ok v => simp
      | error e =>
          simp only
          split_ifs
          · simp
          · have := ih (i + 1) (el + cost i) (some e)
            simp
            omega

theorem safeCallGo_client_stop (attempt : Nat → Except String Val) (cost : Nat → Nat)
    (r i el : Nat) (last : Option String) (e : String)
    (he : attempt i = .error e) (hc : isClientError e = true) :
    safeCallGo attempt cost i el (r + 1) last = (.error e, 1) := by
  unfold safeCallGo
  rw [he]
  simp [hc]

theorem safeCallGo_ok (attempt : Nat → Except String Val) (cost : Nat → Nat)
    (r i el : Nat) (last : Option String) (v : Val) (hv : attempt i = .ok v) :
    safeCallGo attempt cost i el (r + 1) last = (.ok (v, el + cost i), 1) := by
  unfold safeCallGo
  rw [hv]

theorem safeCallGo_all_fail (attempt : Nat → Except String Val) (cost : Nat → Nat) :
    ∀ r, 1 ≤ r → ∀ i el (last : Option String),
    (∀ j, j < r → ∃ e, attempt (i + j) = .error e ∧ isClientError e = false) →
    ∃ e, attempt (i + (r - 1)) = .error e ∧
      safeCallGo attempt cost i el r last = (.error e, r) := by
  intro r
  induction r with
  | zero => omega
  | succ r ih =>
      intro _ i el last hall
      obtain ⟨e0, he0, hnc0⟩ := hall 0 (by omega)
      rw [Nat.add_zero] at he0
      cases r with
      | zero =>
          refine ⟨e0, by simpa using he0, ?_⟩
          unfold safeCallGo
          rw [he0]
          simp [hnc0, safeCallGo]
      | succ r' =>
          obtain ⟨e, he, hgo⟩ := ih (by omega) (i + 1) (el + cost i) (some e0)
            (fun j hj => by
              obtain ⟨e', he', hnc'⟩ := hall (j + 1) (by omega)
              exact ⟨e', by rw [show i + 1 + j = i + (j + 1) by omega]; exact he', hnc'⟩)
          refine ⟨e, ?_, ?_⟩
          · rw [show i + (r' + 1 + 1 - 1) = i + 1 + (r' + 1 - 1) by omega]
            exact he
          · unfold safeCallGo
            rw [he0]
            simp only [hnc0, Bool.false_eq_true, if_false]
            rw [hgo]

/-- C6: the retry wrapper attempts a call at most `retries + 1` times; an
error matching the deterministic client-error signature (`400 Client
Error` / `(400)`) on the first attempt is raised immediately without any
retry; when every attempt up to the bound fails with a non-deterministic
error, the last error is raised after exactly `retries + 1` attempts; and a
first-attempt success returns the result together with the elapsed time. -/
theorem c6_retry_wrapper (attempt : Nat → Except String Val) (cost : Nat → Nat)
    (retries : Nat) :
    (safe_call_run attempt cost retries).2 ≤ retries + 1 ∧
    (∀ e, attempt 0 = .error e → isClientError e = true →
      safe_call_run attempt cost retries = (.error e, 1)) ∧
    ((∀ j, j ≤ retries → ∃ e, attempt j = .error e ∧ isClientError e = false) →
      ∃ e, attempt retries = .error e ∧
        safe_call_run attempt cost retries = (.error e, retries + 1)) ∧
    (∀ v, attempt 0 = .ok v → safe_call_run attempt cost retries = (.ok (v, cost 0), 1)) := by
  refine ⟨?_, ?_, ?_, ?_⟩
  · exact safeCallGo_count_le attempt cost (retries + 1) 0 0 none
  · intro e he hc
    unfold safe_call_run
    exact safeCallGo_client_stop attempt cost retries 0 0 none e he hc
  · intro hall
    obtain ⟨e, he, hgo⟩ := safeCallGo_all_fail attempt cost (retries + 1) (by omega) 0 0 none
      (fun j hj => by simpa using hall j (by omega))
    refine ⟨e, by simpa using he, ?_⟩
    unfold safe_call_run
    exact hgo
  · intro v hv
    unfold safe_call_run
    rw [safeCallGo_ok attempt cost retries 0 0 none v hv]
    simp

/-- A client-error first attempt. -/
def c6Att : Nat → Except String Val := fun i =>
  if i = 0 then .error "HTTP 400 Client Error: Bad Request" else .ok (.vint 7)

/-- C6, witness: the deterministic client error is surfaced after exactly
one attempt at a concrete input. -/
theorem c6_witness :
    safe_call_run c6Att (fun _ => 1) 2 = (.error "HTTP 400 Client Error: Bad Request", 1) :=
  (c6_retry_wrapper c6Att (fun _ => 1) 2).2.1 _ rfl (by decide)

/-! ## C10 — the excluded-method set -/

theorem enumFrom_filter_length (p : MethodSpec → Bool) :
    ∀ (l : List MethodSpec) (n : Nat),
      ((List.enumFrom n l).filter (fun q => p q.2)).length = (l.filter p).length := by
  intro l
  induction l with
  | nil => intro n; rfl
  | cons x xs ih =>
      intro n
      simp only [List.enumFrom, List.filter]
      cases p x <;> simp [ih (n + 1)]

theorem indexed_specs_not_excluded (methods : List MethodSpec) (selected : List String) :
    ∀ q ∈ indexed_specs methods selected, q.2.method ∉ EXCLUDED_METHODS := by
  intro q hq
  have hk := List.of_mem_filter hq
  unfold keepSpec at hk
  simp only [Bool.and_eq_true, Bool.not_eq_true'] at hk
  intro hmem
  have : EXCLUDED_METHODS.contains q.2.method = true := by
    exact List.elem_eq_true_of_mem hmem
  rw [this] at hk
  exact absurd hk.2 (by simp)

/-- C10: a method in the fixed excluded set is silently omitted from the
year's run even when it appears in the MethodSpec feed — it is never
executed (no envelope is written for it), it does not appear in the
manifest's `methods` list, and `total_methods` counts only the scheduled
(section-selected, non-excluded) specs. -/
theorem c10_excluded_methods (seedCall : Client) (oracleFor : Nat → ExecOracle)
    (methods : List MethodSpec) (year : Nat) (overwrite incl : Bool)
    (selected : List String) (fileExists : Nat → Bool) (stored : Nat → Option Envelope)
    (spec : MethodSpec) (hmem : spec ∈ methods) (hexc : spec.method ∈ EXCLUDED_METHODS) :
    spec.method ∉ (collect_year_data seedCall oracleFor methods year overwrite incl
        selected fileExists stored).methods.map ManifestItem.method ∧
    spec.method ∉ collect_executed_methods methods selected ∧
    (collect_year_data seedCall oracleFor methods year overwrite incl
        selected fileExists stored).total_methods =
      (methods.filter (keepSpec selected)).length := by
  refine ⟨?_, ?_, ?_⟩
  · intro hin
    simp only [collect_year_data, List.map_map, List.mem_map] at hin
    obtain ⟨q, hq, hqe⟩ := hin
    have : q.2.method = spec.method := by
      simpa [manifestItemOf, Function.comp] using hqe
    exact indexed_specs_not_excluded methods selected q hq (this ▸ hexc)
  · intro hin
    simp only [collect_executed_methods, List.mem_map] at hin
    obtain ⟨q, hq, hqe⟩ := hin
    exact indexed_specs_not_excluded methods selected q hq (hqe ▸ hexc)
  · simp only [collect_year_data, List.length_map]
    unfold indexed_specs
    simp only [List.enum]
    exact enumFrom_filter_length (keepSpec selected) methods 0

/-- A feed containing an excluded method and a kept method. -/
def c10Methods : List MethodSpec :=
  [⟨"Daily Health & Activity", "daily_health_activity", "get_stats", "get_stats(cdate)"⟩,
   specFullName]

/-- C10, witness: at a concrete feed containing `get_stats`, the excluded
method is absent from the manifest and from the executed list, and
`total_methods` counts only the kept spec. -/
theorem c10_witness :
    "get_stats" ∉ (collect_year_data (fun _ _ => .error "offline") (fun _ => unusedOracle)
        c10Methods 2024 true true [] (fun _ => false) (fun _ => none)).methods.map
          ManifestItem.method ∧
    "get_stats" ∉ collect_executed_methods c10Methods [] ∧
    (collect_year_data (fun _ _ => .error "offline") (fun _ => unusedOracle)
        c10Methods 2024 true true [] (fun _ => false) (fun _ => none)).total_methods =
      (c10Methods.filter (keepSpec [])).length := by
  have h := c10_excluded_methods (fun _ _ => .error "offline") (fun _ => unusedOracle)
    c10Methods 2024 true true [] (fun _ => false) (fun _ => none)
    ⟨"Daily Health & Activity", "daily_health_activity", "get_stats", "get_stats(cdate)"⟩
    (by simp [c10Methods]) (by decide)
  exact h

/-! ## C4 — paged resume -/

theorem lookupVal_cons (p : String × Val) (rest : Kwargs) (key : String) :
    lookupVal (p :: rest) key = if p.1 = key then some p.2 else lookupVal rest key := rfl

theorem lookup_mapReplace (k : String) (v : Val) :
    ∀ kw : Kwargs, (kw.map Prod.fst).contains k = true →
      lookupVal (kw.map (fun p => if p.1 = k then (k, v) else p)) k = some v := by
  intro kw
  induction kw with
  | nil => intro h; simp at h
  | cons p rest ih =>
      intro h
      rw [List.map_cons]
      by_cases hp : p.1 = k
      · rw [if_pos hp, lookupVal_cons, if_pos rfl]
      · rw [if_neg hp, lookupVal_cons, if_neg hp]
        apply ih
        rw [List.map_cons, List.contains_cons] at h
        rcases Bool.or_eq_true_iff.mp h with h1 | h2
        · exact absurd (beq_iff_eq.mp h1).symm hp
        · exact h2

theorem lookup_append_last (k : String) (v : Val) :
    ∀ kw : Kwargs, (kw.map Prod.fst).contains k = false →
      lookupVal (kw ++ [(k, v)]) k = some v := by
  intro kw
  induction kw with
  | nil => intro _; rw [List.nil_append, lookupVal_cons, if_pos rfl]
  | cons p rest ih =>
      intro h
      rw [List.cons_append, lookupVal_cons]
      have hp : p.1 ≠ k := by
        intro hx
        rw [List.map_cons, hx] at h
        simp at h
      rw [if_neg hp]
      apply ih
      revert h
      rw [List.map_cons]
      simp [hp]

theorem lookup_setK_self (kw : Kwargs) (k : String) (v : Val) :
    lookupVal (setK kw k v) k = some v := by
  unfold setK
  split_ifs with h
  · exact lookup_mapReplace k v kw h
  · exact lookup_append_last k v kw (by simpa using h)

theorem lookup_mapReplace_other (k : String) (v : Val) (k' : String) (hne : k' ≠ k) :
    ∀ kw : Kwargs,
      lookupVal (kw.map (fun p => if p.1 = k then (k, v) else p)) k' = lookupVal kw k' := by
  intro kw
  induction kw with
  | nil => rfl
  | cons p rest ih =>
      rw [List.map_cons]
      by_cases hp : p.1 = k
      · have hp' : p.1 ≠ k' := by rw [hp]; exact fun hx => hne hx.symm
        rw [if_pos hp, lookupVal_cons, lookupVal_cons,
          if_neg (show ¬ (k = k') from fun hx => hne hx.symm), if_neg hp']
        exact ih
      · rw [if_neg hp, lookupVal_cons, lookupVal_cons]
        by_cases hpk : p.1 = k'
        · rw [if_pos hpk, if_pos hpk]
        · rw [if_neg hpk, if_neg hpk]
          exact ih

theorem lookup_append_other (k : String) (v : Val) (k' : String) (hne : k' ≠ k) :
    ∀ kw : Kwargs, lookupVal (kw ++ [(k, v)]) k' = lookupVal kw k' := by
  intro kw
  induction kw with
  | nil =>
      rw [List.nil_append, lookupVal_cons, if_neg (show ¬ (k = k') from fun hx => hne hx.symm)]
  | cons p rest ih =>
      rw [List.cons_append, lookupVal_cons, lookupVal_cons]
      by_cases hpk : p.1 = k'
      · rw [if_pos hpk, if_pos hpk]
      · rw [if_neg hpk, if_neg hpk]
        exact ih

theorem lookup_setK_other (kw : Kwargs) (k : String) (v : Val) (k' : String)
    (hne : k' ≠ k) : lookupVal (setK kw k v) k' = lookupVal kw k' := by
  unfold setK
  split_ifs with h
  · exact lookup_mapReplace_other k v k' hne kw
  · exact lookup_append_other k v k' hne kw

theorem limitOf_pagedExtra (m : String) : limitOf (pagedExtra m) = 100 := by
  unfold pagedExtra
  split_ifs <;> rfl

theorem pagedReq_start (base : Kwargs) (ps limit : Int) :
    lookupVal (setK (setK base "start" (.vint ps)) "limit" (.vint limit)) "start"
      = some (.vint ps) := by
  rw [lookup_setK_other _ _ _ _ (by decide), lookup_setK_self]

theorem pagedGo_all_starts (oracle : ExecOracle) (base : Kwargs) :
    ∀ (fuel : Nat) (ps : Int) (idx : Nat), ∀ c ∈ pagedGo oracle base 100 fuel ps idx,
      ∃ s : Int, lookupVal c.req "start" = some (.vint s) ∧ ps ≤ s := by
  intro fuel
  induction fuel with
  | zero => intro ps idx c hc; simp [pagedGo] at hc
  | succ fuel ih =>
      intro ps idx c hc
      unfold pagedGo at hc
      by_cases hps : ps < 20000
      · rw [if_pos hps] at hc
        rcases h : oracle idx with ⟨res, took⟩
        rw [h] at hc
        cases res with
        | error e =>
            simp only [List.mem_singleton] at hc
            exact ⟨ps, by rw [hc]; exact pagedReq_start base ps 100, le_refl ps⟩
        | ok v =>
            simp only at hc
            split_ifs at hc with h1 h2
            · simp only [List.mem_singleton] at hc
              exact ⟨ps, by rw [hc]; exact pagedReq_start base ps 100, le_refl ps⟩
            · simp only [List.mem_singleton] at hc
              exact ⟨ps, by rw [hc]; exact pagedReq_start base ps 100, le_refl ps⟩
            · rcases List.mem_cons.mp hc with hhead | htail
              · exact ⟨ps, by rw [hhead]; exact pagedReq_start base ps 100, le_refl ps⟩
              · obtain ⟨s, hs, hle⟩ := ih (ps + 100) (idx + 1) c htail
                exact ⟨s, hs, by omega⟩
      · rw [if_neg hps] at hc
        simp at hc

theorem pagedGo_head (oracle : ExecOracle) (base : Kwargs) (fuel : Nat) (ps : Int)
    (idx : Nat) (hps : ps < 20000) :
    ∃ c rest, pagedGo oracle base 100 (fuel + 1) ps idx = c :: rest ∧
      lookupVal c.req "start" = some (.vint ps) := by
  unfold pagedGo
  rw [if_pos hps]
  rcases h : oracle idx with ⟨res, took⟩
  cases res with
  | error e => exact ⟨_, _, rfl, pagedReq_start base ps 100⟩
  | ok v =>
      simp only
      split_ifs with h1 h2
      · exact ⟨_, _, rfl, pagedReq_start base ps 100⟩
      · exact ⟨_, _, rfl, pagedReq_start base ps 100⟩
      · exact ⟨_, _, rfl, pagedReq_start base ps 100⟩

theorem initEnvelope_some_match (spec : MethodSpec) (year : Nat) (ct : String)
    (prior : Envelope) (hmeth : prior.method = spec.method) :
    (initEnvelope spec year ct (some prior)).data = prior.data ∧
    (initEnvelope spec year ct (some prior)).stats.success_calls = prior.data.length ∧
    (initEnvelope spec year ct (some prior)).request_args = prior.request_args ∧
    (initEnvelope spec year ct (some prior)).errors = prior.errors := by
  simp only [initEnvelope]
  rw [if_pos hmeth]
  exact ⟨rfl, rfl, rfl, rfl⟩

/-- C4: resuming a paged run whose prior envelope holds successful pages
with highest completed cursor `start = K` (with `0 ≤ K` and the next cursor
under the hard ceiling) issues its first new request at
`start = K + limit` (the page size `limit` is 100), and never re-executes a
page at a cursor `≤ K`: every issued request has `start > K`. -/
theorem c4_paged_resume (oracle : ExecOracle) (spec : MethodSpec) (ctx : SeedContext)
    (incl : Bool) (prior : Envelope) (K : Int)
    (hct : classify_call_type spec.method spec.signature = "paged")
    (hmeth : prior.method = spec.method)
    (hdata : prior.data ≠ [])
    (hstarts : completedStarts prior ≠ [])
    (hmax : maxIntList (completedStarts prior) = K)
    (hK0 : 0 ≤ K) (hKlt : K + 100 < 20000) :
    (∀ q ∈ (execute_method_for_year oracle spec ctx incl (some prior)).2,
      ∃ s : Int, lookupVal q.2 "start" = some (.vint s) ∧ K < s) ∧
    (∃ q rest, (execute_method_for_year oracle spec ctx incl (some prior)).2 = q :: rest ∧
      lookupVal q.2 "start" = some (.vint (K + 100))) := by
  obtain ⟨hd, hsc, -, -⟩ :=
    initEnvelope_some_match spec ctx.year
      (classify_call_type spec.method spec.signature) prior hmeth
  have hc : ¬ ((cacheValue ctx spec.method).isSome ∧
      (initEnvelope spec ctx.year (classify_call_type spec.method spec.signature)
        (some prior)).stats.success_calls = 0) := by
    rintro ⟨-, hzero⟩
    rw [hsc] at hzero
    exact hdata (List.length_eq_zero.mp hzero)
  rw [exec_paged_branch oracle spec ctx incl (some prior) hc hct]
  simp only [pagedPath]
  have hres : resumeStart
      (initEnvelope spec ctx.year (classify_call_type spec.method spec.signature)
        (some prior)) (pagedExtra spec.method) = K + 100 := by
    unfold resumeStart
    rw [if_neg (by simp [hd, hdata])]
    unfold completedStarts
    rw [hd]
    show (if (completedStarts prior).isEmpty = true then (0 : Int)
          else maxIntList (completedStarts prior) + limitOf (pagedExtra spec.method)) = K + 100
    rw [if_neg (fun hemp => hstarts (List.isEmpty_iff.mp hemp)), hmax, limitOf_pagedExtra]
  rw [hres]
  unfold execute_paged_method
  rw [limitOf_pagedExtra]
  have hmax0 : max 0 (K + 100) = K + 100 := by omega
  rw [hmax0]
  constructor
  · intro q hq
    simp only [List.mem_map] at hq
    obtain ⟨c, hc', hq'⟩ := hq
    obtain ⟨s, hs, hle⟩ := pagedGo_all_starts oracle (pagedExtra spec.method)
      20000 (K + 100) 0 c hc'
    exact ⟨s, by rw [← hq']; exact hs, by omega⟩
  · obtain ⟨c, rest, heq, hstart⟩ := pagedGo_head oracle (pagedExtra spec.method)
      19999 (K + 100) 0 hKlt
    refine ⟨(spec.method, c.req), rest.map (fun c => (spec.method, c.req)), ?_, hstart⟩
    rw [show (20000 : Nat) = 19999 + 1 from rfl, heq]
    rfl

/-- A prior paged envelope with completed cursors 0 and 100. -/
def c4Prior : Envelope :=
  { method := "get_activities"
    sectionName := "Activities & Workouts"
    year := 2024
    call_type := "paged"
    status := "partial"
    request_args := [[("start", .vint 0), ("limit", .vint 100)],
                     [("start", .vint 100), ("limit", .vint 100)]]
    data := [DataEntry.mk [("start", .vint 0), ("limit", .vint 100)] (.vlist []),
             DataEntry.mk [("start", .vint 100), ("limit", .vint 100)] (.vlist [])]
    errors := []
    stats := ⟨2, 2, 0, 0⟩ }

/-- The `get_activities` spec. -/
def c4Spec : MethodSpec :=
  ⟨"Activities & Workouts", "activities_workouts", "get_activities",
   "get_activities(start=0, limit=20, activitytype=None)"⟩

/-- C4, witness: resuming after completed cursors 0 and 100, the first new
request is at `start = 200`. -/
theorem c4_witness :
    ∃ q rest, (execute_method_for_year unusedOracle c4Spec (emptySeedCtx 2024) true
      (some c4Prior)).2 = q :: rest ∧
      lookupVal q.2 "start" = some (.vint 200) := by
  have h := c4_paged_resume unusedOracle c4Spec (emptySeedCtx 2024) true c4Prior 100
    (by decide) rfl (List.cons_ne_nil _ _) (by decide) (by decide) (by decide) (by decide)
  exact h.2

/-! ## C5 — canonical-key dedup -/

/-- The canonical key the seed-cache record would contribute, when a usable
cached payload exists for the method. -/
def cacheKeys (ctx : SeedContext) (m : String) : List String :=
  match cacheValue ctx m with
  | some _ => [request_key seedCacheReq]
  | none => []

/-- Canonical keys of the built plan. -/
def planKeys (spec : MethodSpec) (ctx : SeedContext) (incl : Bool) : List String :=
  (build_calls_for_method spec.method spec.signature
    (classify_call_type spec.method spec.signature) ctx incl).1.map request_key

theorem successesOf_req_sublist (outs : List Chunk) :
    ((successesOf outs).map DataEntry.request).Sublist (outs.map Chunk.req) := by
  induction outs with
  | nil => simp [successesOf]
  | cons c rest ih =>
      cases h : c.res with
      | ok v =>
          simp only [successesOf, h, List.map_cons]
          exact List.Sublist.cons₂ _ ih
      | error m =>
          simp only [successesOf, h, List.map_cons]
          exact List.Sublist.cons _ ih

theorem callOutcomes_req (oracle : ExecOracle) :
    ∀ (i : Nat) (calls : List Kwargs), (callOutcomes oracle i calls).map Chunk.req = calls := by
  intro i calls
  induction calls generalizing i with
  | nil => rfl
  | cons kw rest ih => simp [callOutcomes, ih]

theorem initEnvelope_method (spec : MethodSpec) (year : Nat) (ct : String)
    (ex : Option Envelope) : (initEnvelope spec year ct ex).method = spec.method := by
  unfold initEnvelope
  cases ex with
  | none => rfl
  | some e => by_cases h : e.method = spec.method <;> simp [h, freshEnvelope]

theorem adoptCache_keys (e : Envelope) (v : Val) :
    get_completed_request_keys (adoptCache e v) =
      get_completed_request_keys e ++ [request_key seedCacheReq] := by
  simp [adoptCache, get_completed_request_keys]

theorem fold_keys (outs : List Chunk) (e : Envelope) :
    get_completed_request_keys (outs.foldl applyChunk e) =
      get_completed_request_keys e ++
        (successesOf outs).map (fun d => request_key d.request) := by
  obtain ⟨-, hdata, -, -, -, -⟩ := foldl_applyChunk_fields outs e
  simp [get_completed_request_keys, hdata]

theorem keys_status_update (e : Envelope) (st : String) :
    get_completed_request_keys { e with status := st } = get_completed_request_keys e := rfl

/-- Shape of a non-paged execution: the final success keys are the starting
ones followed by fresh keys drawn from the (possibly cache-seeded) plan,
none of which matches a starting key; and every issued call's key avoids
the starting keys. -/
theorem exec_keys_shape (oracle : ExecOracle) (spec : MethodSpec) (ctx : SeedContext)
    (incl : Bool) (ex : Option Envelope)
    (hp : classify_call_type spec.method spec.signature ≠ "paged") :
    ∃ tail : List String,
      get_completed_request_keys (execute_method_for_year oracle spec ctx incl ex).1 =
        get_completed_request_keys
          (initEnvelope spec ctx.year (classify_call_type spec.method spec.signature) ex)
          ++ tail ∧
      tail.Sublist (cacheKeys ctx spec.method ++ planKeys spec ctx incl) ∧
      (∀ k ∈ tail, k ∉ get_completed_request_keys
          (initEnvelope spec ctx.year (classify_call_type spec.method spec.signature) ex)) ∧
      (∀ q ∈ (execute_method_for_year oracle spec ctx incl ex).2,
        request_key q.2 ∉ get_completed_request_keys
          (initEnvelope spec ctx.year (classify_call_type spec.method spec.signature) ex)) := by
  set env0 := initEnvelope spec ctx.year (classify_call_type spec.method spec.signature) ex
    with henv0
  by_cases hc : (cacheValue ctx spec.method).isSome ∧ env0.stats.success_calls = 0
  · -- seed-cache adoption: the envelope had no successes, so no prior keys
    have hsync := initEnvelope_synced spec ctx.year
      (classify_call_type spec.method spec.signature) ex
    rw [← henv0] at hsync
    obtain ⟨-, h2, -⟩ := hsync
    have hdat : env0.data = [] := by
      apply List.length_eq_zero.mp
      rw [← h2]
      exact hc.2
    have hkeys0 : get_completed_request_keys env0 = [] := by
      simp [get_completed_request_keys, hdat]
    rw [exec_cache_branch oracle spec ctx incl ex hc]
    refine ⟨[request_key seedCacheReq], ?_, ?_, ?_, ?_⟩
    · rw [← henv0, adoptCache_keys, hkeys0]
    · unfold cacheKeys
      rcases hcv : cacheValue ctx spec.method with - | v
      · rw [hcv] at hc
        simp at hc
      · exact List.sublist_append_left _ _
    · intro k _
      rw [hkeys0]
      exact List.not_mem_nil k
    · intro q hq
      simp at hq
  · rw [exec_plan_branch oracle spec ctx incl ex hc hp]
    simp only [planPath]
    split_ifs with hskip
    · exact ⟨[], by simp [skipEnvelope, get_completed_request_keys], by simp,
        by simp, by simp⟩
    · set pending := (build_calls_for_method spec.method spec.signature
        (classify_call_type spec.method spec.signature) ctx incl).1.filter
          (fun kw => !((get_completed_request_keys env0).contains (request_key kw)))
        with hpend
      have hnotin : ∀ kw ∈ pending, request_key kw ∉ get_completed_request_keys env0 := by
        intro kw hkw
        have := List.of_mem_filter hkw
        simpa using this
      refine ⟨(successesOf (callOutcomes oracle 0 pending)).map
        (fun d => request_key d.request), ?_, ?_, ?_, ?_⟩
      · rw [show ((({ List.foldl applyChunk env0 (callOutcomes oracle 0 pending) with
            status := deriveStatusFull
              (List.foldl applyChunk env0 (callOutcomes oracle 0 pending)).stats } : Envelope),
            pending.map (fun kw => (spec.method, kw))) : Envelope × List (String × Kwargs)).1
          = { List.foldl applyChunk env0 (callOutcomes oracle 0 pending) with
            status := deriveStatusFull
              (List.foldl applyChunk env0 (callOutcomes oracle 0 pending)).stats } from rfl,
          keys_status_update, fold_keys]
      · have h1 : ((successesOf (callOutcomes oracle 0 pending)).map
            (fun d => request_key d.request)).Sublist
              ((callOutcomes oracle 0 pending).map (fun c => request_key c.req)) := by
          have := List.Sublist.map request_key (successesOf_req_sublist
            (callOutcomes oracle 0 pending))
          simpa [List.map_map, Function.comp] using this
        have h2 : ((callOutcomes oracle 0 pending).map (fun c => request_key c.req))
            = pending.map request_key := by
          have := callOutcomes_req oracle 0 pending
          calc ((callOutcomes oracle 0 pending).map (fun c => request_key c.req))
              = ((callOutcomes oracle 0 pending).map Chunk.req).map request_key := by
                simp [List.map_map, Function.comp]
            _ = pending.map request_key := by rw [this]
        have h3 : (pending.map request_key).Sublist (planKeys spec ctx incl) := by
          unfold planKeys
          exact List.Sublist.map request_key (List.filter_sublist _)
        exact ((h2 ▸ h1).trans h3).trans
          (List.sublist_append_right (cacheKeys ctx spec.method) _)
      · intro k hk
        simp only [List.mem_map] at hk
        obtain ⟨d, hd, hdk⟩ := hk
        have hd' : d.request ∈ (callOutcomes oracle 0 pending).map Chunk.req := by
          have := successesOf_req_sublist (callOutcomes oracle 0 pending)
          exact this.mem (List.mem_map_of_mem DataEntry.request hd)
        rw [callOutcomes_req] at hd'
        exact hdk ▸ hnotin d.request hd'
      · intro q hq
        simp only [List.mem_map] at hq
        obtain ⟨kw, hkw, hq'⟩ := hq
        have : q.2 = kw := by rw [← hq']
        exact this ▸ hnotin kw hkw

theorem exec_method (oracle : ExecOracle) (spec : MethodSpec) (ctx : SeedContext)
    (incl : Bool) (ex : Option Envelope) :
    (execute_method_for_year oracle spec ctx incl ex).1.method = spec.method := by
  by_cases hc : (cacheValue ctx spec.method).isSome ∧
      (initEnvelope spec ctx.year (classify_call_type spec.method spec.signature) ex).stats.success_calls = 0
  · rw [exec_cache_branch oracle spec ctx incl ex hc]
    simp only [adoptCache]
    exact initEnvelope_method spec ctx.year _ ex
  · by_cases hp : classify_call_type spec.method spec.signature = "paged"
    · rw [exec_paged_branch oracle spec ctx incl ex hc hp]
      simp only [pagedPath]
      obtain ⟨-, -, -, hm, -, -⟩ := foldl_applyChunk_fields
        (execute_paged_method oracle (pagedExtra spec.method)
          (resumeStart (initEnvelope spec ctx.year
            (classify_call_type spec.method spec.signature) ex) (pagedExtra spec.method)))
        (initEnvelope spec ctx.year (classify_call_type spec.method spec.signature) ex)
      rw [show ∀ e : Envelope, ∀ st, ({ e with status := st } : Envelope).method = e.method
        from fun _ _ => rfl]
      rw [hm]
      exact initEnvelope_method spec ctx.year _ ex
    · rw [exec_plan_branch oracle spec ctx incl ex hc hp]
      simp only [planPath]
      split_ifs with hskip
      · simp only [skipEnvelope]
        exact initEnvelope_method spec ctx.year _ ex
      · obtain ⟨-, -, -, hm, -, -⟩ := foldl_applyChunk_fields
          (callOutcomes oracle 0
            ((build_calls_for_method spec.method spec.signature
              (classify_call_type spec.method spec.signature) ctx incl).1.filter
                (fun kw => !((get_completed_request_keys
                  (initEnvelope spec ctx.year
                    (classify_call_type spec.method spec.signature) ex)).contains
                      (request_key kw)))))
          (initEnvelope spec ctx.year (classify_call_type spec.method spec.signature) ex)
        rw [show ∀ e : Envelope, ∀ st, ({ e with status := st } : Envelope).method = e.method
          from fun _ _ => rfl]
        rw [hm]
        exact initEnvelope_method spec ctx.year _ ex

/-- C5: for an `id_based` method whose possible seed-cache key and plan
keys are pairwise distinct (which deduplicated id seeds guarantee, the
canonical serialisation being injective on them), two runs over the same
seed context — a fresh run and a resumed run over its persisted envelope —
never produce two success records sharing a canonical request key, and the
resumed run executes no planned call whose key matches a prior success. -/
theorem c5_dedup_canonical_keys (oracle1 oracle2 : ExecOracle) (spec : MethodSpec)
    (ctx : SeedContext) (incl : Bool)
    (hct : classify_call_type spec.method spec.signature = "id_based")
    (hkeys : (cacheKeys ctx spec.method ++ planKeys spec ctx incl).Nodup) :
    (get_completed_request_keys
      (execute_method_for_year oracle1 spec ctx incl none).1).Nodup ∧
    (get_completed_request_keys
      (execute_method_for_year oracle2 spec ctx incl
        (some (execute_method_for_year oracle1 spec ctx incl none).1)).1).Nodup ∧
    (∀ q ∈ (execute_method_for_year oracle2 spec ctx incl
        (some (execute_method_for_year oracle1 spec ctx incl none).1)).2,
      request_key q.2 ∉
        get_completed_request_keys
          (execute_method_for_year oracle1 spec ctx incl none).1) := by
  have hp : classify_call_type spec.method spec.signature ≠ "paged" := by
    rw [hct]; decide
  obtain ⟨t1, he1, hs1, -, -⟩ := exec_keys_shape oracle1 spec ctx incl none hp
  have hfresh : get_completed_request_keys
      (initEnvelope spec ctx.year (classify_call_type spec.method spec.signature) none)
        = [] := by
    rw [initEnvelope_none]; rfl
  have hk1 : get_completed_request_keys
      (execute_method_for_year oracle1 spec ctx incl none).1 = t1 := by
    rw [he1, hfresh, List.nil_append]
  have hn1 : (get_completed_request_keys
      (execute_method_for_year oracle1 spec ctx incl none).1).Nodup := by
    rw [hk1]
    exact List.Nodup.sublist hs1 hkeys
  obtain ⟨t2, he2, hs2, hd2, hiss2⟩ := exec_keys_shape oracle2 spec ctx incl
    (some (execute_method_for_year oracle1 spec ctx incl none).1) hp
  have hm1 : (execute_method_for_year oracle1 spec ctx incl none).1.method = spec.method :=
    exec_method oracle1 spec ctx incl none
  have hkeys0 : get_completed_request_keys
      (initEnvelope spec ctx.year (classify_call_type spec.method spec.signature)
        (some (execute_method_for_year oracle1 spec ctx incl none).1)) =
      get_completed_request_keys (execute_method_for_year oracle1 spec ctx incl none).1 := by
    obtain ⟨hd, -, -, -⟩ := initEnvelope_some_match spec ctx.year
      (classify_call_type spec.method spec.signature)
      (execute_method_for_year oracle1 spec ctx incl none).1 hm1
    simp [get_completed_request_keys, hd]
  refine ⟨hn1, ?_, ?_⟩
  · rw [he2, hkeys0]
    refine List.Nodup.append hn1 (List.Nodup.sublist hs2 hkeys) ?_
    intro a ha1 ha2
    exact hd2 a ha2 (by rw [hkeys0]; exact ha1)
  · intro q hq
    have := hiss2 q hq
    rw [hkeys0] at this
    exact this

/-- A seed context holding two activity ids and no cached payloads. -/
def c5Ctx : SeedContext :=
  { emptySeedCtx 2024 with activity_ids := [.vint 1, .vint 2] }

/-- The `get_activity` spec (id-based). -/
def c5Spec : MethodSpec :=
  ⟨"Activities & Workouts", "activities_workouts", "get_activity",
   "get_activity(activity_id)"⟩

/-- First-run oracle: first id succeeds, second fails. -/
def c5Oracle1 : ExecOracle := fun i =>
  if i = 0 then (.ok (.vint 10), 1) else (.error "HTTP Error 500", 1)

/-- Second-run oracle: everything succeeds. -/
def c5Oracle2 : ExecOracle := fun _ => (.ok (.vint 11), 1)

/-- C5, witness: the dedup theorem at a concrete id-based method, seed
context and pair of runs. -/
theorem c5_witness :
    (get_completed_request_keys
      (execute_method_for_year c5Oracle1 c5Spec c5Ctx true none).1).Nodup ∧
    (get_completed_request_keys
      (execute_method_for_year c5Oracle2 c5Spec c5Ctx true
        (some (execute_method_for_year c5Oracle1 c5Spec c5Ctx true none).1)).1).Nodup ∧
    (∀ q ∈ (execute_method_for_year c5Oracle2 c5Spec c5Ctx true
        (some (execute_method_for_year c5Oracle1 c5Spec c5Ctx true none).1)).2,
      request_key q.2 ∉
        get_completed_request_keys
          (execute_method_for_year c5Oracle1 c5Spec c5Ctx true none).1) :=
  c5_dedup_canonical_keys c5Oracle1 c5Oracle2 c5Spec c5Ctx true (by decide) (by decide)

/-! ## C9 — bootstrap fault tolerance -/

theorem fetch_all_workouts_fail (call : Client) (e : String)
    (h : ∀ kw, call "get_workouts" kw = .error e) :
    fetch_all_workouts call = .error e := by
  unfold fetch_all_workouts
  rw [show (200 : Nat) = 199 + 1 from rfl]
  unfold fetchWorkoutsGo
  rw [if_pos (by decide), h]

theorem fetch_activities_fail (call : Client) (year : Nat) (e : String)
    (h : ∀ kw, call "get_activities" kw = .error e) :
    fetch_activities_for_year call year = [] := by
  unfold fetch_activities_for_year
  rw [show (500 : Nat) = 499 + 1 from rfl]
  unfold fetchActsGo
  rw [if_pos (by decide), h]

theorem fetchActsGo_congr (call call' : Client) (year : Nat)
    (h : ∀ kw, call' "get_activities" kw = call "get_activities" kw) :
    ∀ fuel page empty acc,
      fetchActsGo call' year fuel page empty acc =
        fetchActsGo call year fuel page empty acc := by
  intro fuel
  induction fuel with
  | zero => intro page empty acc; rfl
  | succ fuel ih =>
      intro page empty acc
      unfold fetchActsGo
      by_cases hp : page < 500
      · rw [if_pos hp, if_pos hp, h]
        cases hres : call "get_activities"
            [("start", .vint (page * 100)), ("limit", .vint 100)] with
        | error e => rfl
        | ok batch =>
            cases batch with
            | vlist xs =>
                cases xs with
                | nil => split_ifs <;> simp [ih]
                | cons a rest => split_ifs <;> simp [ih]
            | vnull => split_ifs <;> simp [ih]
            | vbool b => split_ifs <;> simp [ih]
            | vint n => split_ifs <;> simp [ih]
            | vstr s => split_ifs <;> simp [ih]
            | vdict fs => split_ifs <;> simp [ih]
      · rw [if_neg hp, if_neg hp]

/-- C9, amended: seed-context construction is total — whatever the remote
outcomes, it returns a context with the year's structural fields intact
(never aborts); a workouts fetch that fails leaves the workout id lists at
their empty defaults and caches an empty payload; an activities fetch that
fails from the first page does the same for activity ids; and changing only
the workouts source leaves every other id collection untouched.  (A
failure partway through the paginated activity fetch retains the pages
already collected — see the counterexample — and a profile failure can
additionally starve the downstream gear fetch of its profile-number
argument.) -/
theorem c9_amended_bootstrap_fault_tolerance (call : Client) (year : Nat) :
    ((build_seed_context call year).year = year ∧
     (build_seed_context call year).start_date = ⟨year, 1, 1⟩ ∧
     (build_seed_context call year).end_date = ⟨year, 12, 31⟩ ∧
     (build_seed_context call year).dates = iter_year_dates year) ∧
    (∀ e, (∀ kw, call "get_workouts" kw = .error e) →
      (build_seed_context call year).workout_ids = [] ∧
      (build_seed_context call year).scheduled_workout_ids = [] ∧
      lookupVal (build_seed_context call year).cached_method_data "get_workouts"
        = some (.vlist [])) ∧
    (∀ e, (∀ kw, call "get_activities" kw = .error e) →
      (build_seed_context call year).activity_ids = [] ∧
      lookupVal (build_seed_context call year).cached_method_data "get_activities"
        = some (.vlist [])) ∧
    (∀ call' : Client, (∀ m kw, m ≠ "get_workouts" → call' m kw = call m kw) →
      (build_seed_context call' year).activity_ids
          = (build_seed_context call year).activity_ids ∧
      (build_seed_context call' year).device_ids
          = (build_seed_context call year).device_ids ∧
      (build_seed_context call' year).user_profile_numbers
          = (build_seed_context call year).user_profile_numbers ∧
      (build_seed_context call' year).gear_uuids
          = (build_seed_context call year).gear_uuids ∧
      (build_seed_context call' year).plan_ids
          = (build_seed_context call year).plan_ids) := by
  refine ⟨⟨rfl, rfl, rfl, rfl⟩, ?_, ?_, ?_⟩
  · intro e hW
    have hfail := fetch_all_workouts_fail call e hW
    refine ⟨?_, ?_, ?_⟩ <;>
      simp [build_seed_context, hfail, dedupSort, dedupVals, sortVals, lookupVal]
  · intro e hA
    have hfail := fetch_activities_fail call year e hA
    refine ⟨?_, ?_⟩ <;>
      simp [build_seed_context, hfail, dedupSort, dedupVals, sortVals, lookupVal]
  · intro call' h
    have hacts : fetch_activities_for_year call' year = fetch_activities_for_year call year := by
      unfold fetch_activities_for_year
      exact fetchActsGo_congr call call' year
        (fun kw => h "get_activities" kw (by decide)) 500 0 0 []
    have hdev : ∀ kw, call' "get_devices" kw = call "get_devices" kw :=
      fun kw => h "get_devices" kw (by decide)
    have hprof : ∀ kw, call' "get_user_profile" kw = call "get_user_profile" kw :=
      fun kw => h "get_user_profile" kw (by decide)
    have hlast : ∀ kw, call' "get_device_last_used" kw = call "get_device_last_used" kw :=
      fun kw => h "get_device_last_used" kw (by decide)
    have hgear : ∀ kw, call' "get_gear" kw = call "get_gear" kw :=
      fun kw => h "get_gear" kw (by decide)
    have hplan : ∀ kw, call' "get_training_plans" kw = call "get_training_plans" kw :=
      fun kw => h "get_training_plans" kw (by decide)
    refine ⟨?_, ?_, ?_, ?_, ?_⟩ <;>
      simp only [build_seed_context, hacts, hdev, hprof, hlast, hgear, hplan]

/-- A client whose activity feed succeeds for the first page (one 2024
activity) and raises from the second page on. -/
def c9Call : Client := fun method kwargs =>
  if method = "get_activities" then
    match lookupVal kwargs "start" with
    | some (.vint 0) =>
        .ok (.vlist [.vdict [("activityId", .vint 11),
                             ("startTimeLocal", .vstr "2024-05-01 10:00:00")]])
    | _ => .error "network boom"
  else .ok (.vdict [])

/-- C9, counterexample: a remote call of the paginated activity fetch
raises partway through (page 2), yet the resulting seed context keeps the
already-fetched activity id rather than the claimed empty default. -/
theorem c9_counterexample :
    (build_seed_context c9Call 2024).activity_ids = [.vint 11] ∧
    (build_seed_context c9Call 2024).activity_ids ≠ [] := by
  have h1 : (build_seed_context c9Call 2024).activity_ids = [.vint 11] := rfl
  exact ⟨h1, by rw [h1]; exact List.cons_ne_nil _ _⟩

/-- A client whose workouts source always fails and whose other sources
respond with empty defaults. -/
def c9FailW : Client := fun method _ =>
  if method = "get_workouts" then .error "HTTP Error 503" else .ok (.vdict [])

/-- C9, witness: with the workouts source failing, construction completes
with empty workout seeds and an empty cached payload. -/
theorem c9_witness :
    (build_seed_context c9FailW 2024).workout_ids = [] ∧
    (build_seed_context c9FailW 2024).scheduled_workout_ids = [] ∧
    lookupVal (build_seed_context c9FailW 2024).cached_method_data "get_workouts"
      = some (.vlist []) :=
  (c9_amended_bootstrap_fault_tolerance c9FailW 2024).2.1 "HTTP Error 503"
    (fun kw => rfl)

/-! ## Calendar arithmetic for C7 and C8 -/

theorem monthPrefixDays_succ (y m : Nat) :
    monthPrefixDays y (m + 1) = monthPrefixDays y m + daysInMonth y m := rfl

theorem monthPrefixDays_mono (y : Nat) {a b : Nat} (h : a ≤ b) :
    monthPrefixDays y a ≤ monthPrefixDays y b := by
  obtain ⟨k, rfl⟩ := Nat.exists_eq_add_of_le h
  induction k with
  | zero => simp
  | succ k ih =>
      rw [show a + (k + 1) = (a + k) + 1 by omega, monthPrefixDays_succ]
      omega

theorem daysInMonth_pos (y m : Nat) (h1 : 1 ≤ m) (h2 : m ≤ 12) :
    1 ≤ daysInMonth y m := by
  interval_cases m <;> simp [daysInMonth] <;> split_ifs <;> omega

theorem daysInYear_eq (y : Nat) : daysInYear y = if isLeap y then 366 else 365 := by
  unfold daysInYear
  show ((((((((((((0 + 0) + 31) + (if isLeap y then 29 else 28)) + 31) + 30) + 31)
      + 30) + 31) + 31) + 30) + 31) + 30) + 31 = _
  split_ifs <;> norm_num

theorem dayIdx_last (y : Nat) : dayIdx ⟨y, 12, 31⟩ = daysInYear y := rfl

theorem dayIdx_bounds (y : Nat) (dt : Date) (hv : validIn y dt) :
    1 ≤ dayIdx dt ∧ dayIdx dt ≤ daysInYear y := by
  obtain ⟨hy, hm1, hm2, hd1, hd2⟩ := hv
  constructor
  · unfold dayIdx; omega
  · have h1 : monthPrefixDays y dt.m + dt.d ≤ monthPrefixDays y dt.m + daysInMonth y dt.m := by
      omega
    have h2 : monthPrefixDays y dt.m + daysInMonth y dt.m = monthPrefixDays y (dt.m + 1) :=
      (monthPrefixDays_succ y dt.m).symm
    have h3 : monthPrefixDays y (dt.m + 1) ≤ monthPrefixDays y 13 :=
      monthPrefixDays_mono y (by omega)
    unfold dayIdx daysInYear
    rw [hy]
    omega

theorem dayIdx_last_unique (y : Nat) (dt : Date) (hv : validIn y dt)
    (h : dayIdx dt = daysInYear y) : dt = ⟨y, 12, 31⟩ := by
  obtain ⟨hy, hm1, hm2, hd1, hd2⟩ := hv
  have hm12 : dt.m = 12 := by
    by_contra hne
    have hmlt : dt.m < 12 := by omega
    have h1 : monthPrefixDays y dt.m + dt.d ≤ monthPrefixDays y (dt.m + 1) := by
      rw [monthPrefixDays_succ]; omega
    have h2 : monthPrefixDays y (dt.m + 1) ≤ monthPrefixDays y 12 :=
      monthPrefixDays_mono y (by omega)
    have h3 : monthPrefixDays y 12 + 31 = daysInYear y := rfl
    unfold dayIdx at h
    rw [hy] at h
    omega
  have hd : dt.d = 31 := by
    unfold dayIdx at h
    rw [hy, hm12] at h
    have h3 : monthPrefixDays y 12 + 31 = daysInYear y := rfl
    omega
  cases dt with
  | mk a b c =>
      simp only at hy hm12 hd
      rw [hy, hm12, hd]

theorem nextDate_step (y : Nat) (dt : Date) (hv : validIn y dt)
    (hlt : dayIdx dt < daysInYear y) :
    validIn y (nextDate dt) ∧ dayIdx (nextDate dt) = dayIdx dt + 1 := by
  obtain ⟨a, m, d⟩ := dt
  obtain ⟨hy, hm1, hm2, hd1, hd2⟩ := hv
  simp only at hy hm1 hm2 hd1 hd2
  subst a
  have hidx : dayIdx ⟨y, m, d⟩ = monthPrefixDays y m + d := rfl
  unfold nextDate
  simp only
  by_cases hc1 : d < daysInMonth y m
  · rw [if_pos hc1]
    refine ⟨⟨rfl, hm1, hm2, show 1 ≤ d + 1 by omega, show d + 1 ≤ daysInMonth y m by omega⟩, ?_⟩
    show monthPrefixDays y m + (d + 1) = monthPrefixDays y m + d + 1
    omega
  · rw [if_neg hc1]
    have hde : d = daysInMonth y m := by omega
    by_cases hc2 : m < 12
    · rw [if_pos hc2]
      refine ⟨⟨rfl, show 1 ≤ m + 1 by omega, show m + 1 ≤ 12 by omega, le_refl 1,
        daysInMonth_pos y (m + 1) (by omega) (by omega)⟩, ?_⟩
      show monthPrefixDays y (m + 1) + 1 = monthPrefixDays y m + d + 1
      rw [monthPrefixDays_succ]
      omega
    · exfalso
      have hm12 : m = 12 := by omega
      subst hm12
      have h4 : daysInMonth y 12 = 31 := rfl
      have h3 : monthPrefixDays y 12 + 31 = daysInYear y := rfl
      rw [hidx] at hlt
      omega

theorem nextDate_dec31 (y : Nat) : nextDate ⟨y, 12, 31⟩ = ⟨y + 1, 1, 1⟩ := rfl

theorem dateLeB_last (y : Nat) (dt : Date) (hv : validIn y dt) :
    dateLeB dt ⟨y, 12, 31⟩ = true := by
  obtain ⟨hy, hm1, hm2, hd1, hd2⟩ := hv
  unfold dateLeB
  simp only [hy]
  by_cases hm : dt.m < 12
  · simp [hm]
  · have hm12 : dt.m = 12 := by omega
    have hd31 : dt.d ≤ 31 := by
      rw [← hy] at hd2
      rw [hm12] at hd2
      simpa [daysInMonth, hy] using hd2
    simp [hm12, hd31]

theorem dateLeB_next_year (y : Nat) : dateLeB ⟨y + 1, 1, 1⟩ ⟨y, 12, 31⟩ = false := by
  unfold dateLeB
  simp

theorem iterDatesGo_next_year_nil (y : Nat) (fuel : Nat) :
    iterDatesGo fuel ⟨y + 1, 1, 1⟩ ⟨y, 12, 31⟩ = [] := by
  cases fuel with
  | zero => rfl
  | succ fuel =>
      unfold iterDatesGo
      rw [dateLeB_next_year]
      simp

theorem iterDatesGo_spec (y : Nat) : ∀ (fuel : Nat) (dt : Date), validIn y dt →
    daysInYear y + 1 - dayIdx dt ≤ fuel →
    (iterDatesGo fuel dt ⟨y, 12, 31⟩).map dayIdx
        = List.range' (dayIdx dt) (daysInYear y + 1 - dayIdx dt) ∧
    ∀ e ∈ iterDatesGo fuel dt ⟨y, 12, 31⟩, validIn y e := by
  intro fuel
  induction fuel with
  | zero =>
      intro dt hv hf
      obtain ⟨-, hub⟩ := dayIdx_bounds y dt hv
      omega
  | succ fuel ih =>
      intro dt hv hf
      obtain ⟨hlb, hub⟩ := dayIdx_bounds y dt hv
      unfold iterDatesGo
      rw [dateLeB_last y dt hv]
      simp only [if_true]
      by_cases hlast : dayIdx dt = daysInYear y
      · have hdt : dt = ⟨y, 12, 31⟩ := dayIdx_last_unique y dt hv hlast
        have hnil : iterDatesGo fuel (nextDate dt) ⟨y, 12, 31⟩ = [] := by
          rw [hdt, nextDate_dec31]
          exact iterDatesGo_next_year_nil y fuel
        rw [hnil]
        constructor
        · rw [show daysInYear y + 1 - dayIdx dt = 1 by omega]
          simp [hlast]
        · intro e he
          rcases List.mem_cons.mp he with he | he
          · exact he ▸ hv
          · simp at he
      · have hlt : dayIdx dt < daysInYear y := by omega
        obtain ⟨hv', hidx'⟩ := nextDate_step y dt hv hlt
        obtain ⟨ih1, ih2⟩ := ih (nextDate dt) hv' (by omega)
        constructor
        · rw [List.map_cons, ih1, hidx']
          rw [show daysInYear y + 1 - dayIdx dt
              = (daysInYear y + 1 - (dayIdx dt + 1)) + 1 by omega]
          rw [List.range'_succ]
        · intro e he
          rcases List.mem_cons.mp he with he | he
          · exact he ▸ hv
          · exact ih2 e he

theorem dayIdx_lt_of_lex (y : Nat) (a b : Date) (hva : validIn y a) (hvb : validIn y b)
    (h : a.m < b.m ∨ (a.m = b.m ∧ a.d < b.d)) : dayIdx a < dayIdx b := by
  obtain ⟨hya, hma1, hma2, hda1, hda2⟩ := hva
  obtain ⟨hyb, hmb1, hmb2, hdb1, hdb2⟩ := hvb
  rcases h with hm | ⟨hm, hd⟩
  · have h1 : monthPrefixDays y a.m + a.d ≤ monthPrefixDays y (a.m + 1) := by
      rw [monthPrefixDays_succ]
      omega
    have h2 : monthPrefixDays y (a.m + 1) ≤ monthPrefixDays y b.m :=
      monthPrefixDays_mono y (by omega)
    unfold dayIdx
    rw [hya, hyb]
    omega
  · unfold dayIdx
    rw [hya, hyb, hm]
    omega

theorem dayIdx_inj (y : Nat) (a b : Date) (hva : validIn y a) (hvb : validIn y b)
    (h : dayIdx a = dayIdx b) : a = b := by
  have hym : a.m = b.m := by
    rcases Nat.lt_trichotomy a.m b.m with hm | hm | hm
    · exact absurd h (Nat.ne_of_lt (dayIdx_lt_of_lex y a b hva hvb (Or.inl hm)))
    · exact hm
    · exact absurd h.symm (Nat.ne_of_lt (dayIdx_lt_of_lex y b a hvb hva (Or.inl hm)))
  have hyd : a.d = b.d := by
    rcases Nat.lt_trichotomy a.d b.d with hd | hd | hd
    · exact absurd h (Nat.ne_of_lt (dayIdx_lt_of_lex y a b hva hvb (Or.inr ⟨hym, hd⟩)))
    · exact hd
    · exact absurd h.symm (Nat.ne_of_lt (dayIdx_lt_of_lex y b a hvb hva (Or.inr ⟨hym.symm, hd⟩)))
  obtain ⟨hya, -⟩ := hva
  obtain ⟨hyb, -⟩ := hvb
  cases a with
  | mk ay am ad =>
      cases b with
      | mk byy bm bd =>
          simp only at hya hyb hym hyd
          rw [hya, hyb, hym, hyd]

/-! ## C7 — daily date completeness -/

theorem seed_dates (call : Client) (year : Nat) :
    (build_seed_context call year).dates = iter_year_dates year := rfl

theorem classify_daily_has_date_param (m sig : String)
    (h : classify_call_type m sig = "daily") :
    (parse_signature_params sig).contains "cdate" = true ∨
    (parse_signature_params sig).contains "fordate" = true := by
  by_cases hcd : (parse_signature_params sig).contains "cdate" = true
  · exact Or.inl hcd
  · by_cases hfd : (parse_signature_params sig).contains "fordate" = true
    · exact Or.inr hfd
    · exfalso
      have hcd1 : "cdate" ∉ parse_signature_params sig := by simpa using hcd
      have hfd1 : "fordate" ∉ parse_signature_params sig := by simpa using hfd
      unfold classify_call_type at h
      simp [hcd1, hfd1] at h
      split_ifs at h <;> exact absurd h (by decide)

theorem iter_year_dates_idx (y : Nat) :
    (iter_year_dates y).map dayIdx = List.range' 1 (daysInYear y) ∧
    ∀ e ∈ iter_year_dates y, validIn y e := by
  have hv : validIn y ⟨y, 1, 1⟩ :=
    ⟨rfl, le_refl 1, show (1 : Nat) ≤ 12 by omega, le_refl 1,
     show (1 : Nat) ≤ 31 by omega⟩
  have hidx : dayIdx ⟨y, 1, 1⟩ = 1 := by
    show monthPrefixDays y 1 + 1 = 1
    rfl
  have hfuel : daysInYear y + 1 - dayIdx ⟨y, 1, 1⟩ ≤ 366 := by
    rw [hidx]
    have := daysInYear_eq y
    split_ifs at this <;> omega
  obtain ⟨h1, h2⟩ := iterDatesGo_spec y 366 ⟨y, 1, 1⟩ hv hfuel
  unfold iter_year_dates
  refine ⟨?_, h2⟩
  rw [h1, hidx]
  congr 1

/-- C7: for a method classified `daily` the built call plan holds exactly
one call per calendar day of the target year — 365, or 366 in a leap year —
keyed by the signature's declared date-parameter name (`cdate`, else
`fordate`), covering January 1 through December 31 in order (the day
ordinals of the planned dates are exactly `1, …, daysInYear` in order, and
every valid date of the year appears exactly once). -/
theorem c7_daily_date_completeness (call : Client) (year : Nat) (m sig : String)
    (incl : Bool) (hct : classify_call_type m sig = "daily") :
    ∃ p, p ∈ parse_signature_params sig ∧ (p = "cdate" ∨ p = "fordate") ∧
      build_calls_for_method m sig "daily" (build_seed_context call year) incl
        = ((iter_year_dates year).map (fun d => [(p, Val.vstr (isoDate d))]), none) ∧
      (iter_year_dates year).length = (if isLeap year then 366 else 365) ∧
      (iter_year_dates year).map dayIdx = List.range' 1 (daysInYear year) ∧
      (∀ e ∈ iter_year_dates year, validIn year e) ∧
      (∀ dt : Date, validIn year dt → (iter_year_dates year).count dt = 1) := by
  obtain ⟨hmap, hval⟩ := iter_year_dates_idx year
  have hlen : (iter_year_dates year).length = (if isLeap year then 366 else 365) := by
    have := congrArg List.length hmap
    simpa [daysInYear_eq year] using this
  have hnodup : (iter_year_dates year).Nodup := by
    have hr : (List.range' 1 (daysInYear year)).Nodup := List.nodup_range' 1 (daysInYear year)
    rw [← hmap] at hr
    exact hr.of_map dayIdx
  have hcount : ∀ dt : Date, validIn year dt → (iter_year_dates year).count dt = 1 := by
    intro dt hvdt
    obtain ⟨hlb, hub⟩ := dayIdx_bounds year dt hvdt
    have hmem : dt ∈ iter_year_dates year := by
      have hidxmem : dayIdx dt ∈ List.range' 1 (daysInYear year) := by
        rw [List.mem_range'_1]
        exact ⟨by omega, by omega⟩
      rw [← hmap] at hidxmem
      obtain ⟨e, he, hei⟩ := List.mem_map.mp hidxmem
      have : e = dt := dayIdx_inj year e dt (hval e he) hvdt hei
      exact this ▸ he
    exact List.count_eq_one_of_mem hnodup hmem
  have hdp := classify_daily_has_date_param m sig hct
  by_cases hc : (parse_signature_params sig).contains "cdate" = true
  · refine ⟨"cdate", by simpa using hc, Or.inl rfl, ?_, hlen, hmap, hval, hcount⟩
    have hc1 : "cdate" ∈ parse_signature_params sig := by simpa using hc
    simp only [build_calls_for_method]
    simp [hc1, seed_dates]
  · have hf : (parse_signature_params sig).contains "fordate" = true := by
      rcases hdp with h | h
      · exact absurd h hc
      · exact h
    refine ⟨"fordate", by simpa using hf, Or.inr rfl, ?_, hlen, hmap, hval, hcount⟩
    have hc1 : "cdate" ∉ parse_signature_params sig := by simpa using hc
    have hf1 : "fordate" ∈ parse_signature_params sig := by simpa using hf
    simp only [build_calls_for_method]
    simp [hc1, hf1, seed_dates]

/-- C7, witness: the daily plan theorem at `get_sleep_data(cdate)` and
year 2024. -/
theorem c7_witness :
    ∃ p, p ∈ parse_signature_params "get_sleep_data(cdate)" ∧
      (p = "cdate" ∨ p = "fordate") ∧
      build_calls_for_method "get_sleep_data" "get_sleep_data(cdate)" "daily"
          (build_seed_context (fun _ _ => .error "offline") 2024) true
        = ((iter_year_dates 2024).map (fun d => [(p, Val.vstr (isoDate d))]), none) ∧
      (iter_year_dates 2024).length = (if isLeap 2024 then 366 else 365) ∧
      (iter_year_dates 2024).map dayIdx = List.range' 1 (daysInYear 2024) ∧
      (∀ e ∈ iter_year_dates 2024, validIn 2024 e) ∧
      (∀ dt : Date, validIn 2024 dt → (iter_year_dates 2024).count dt = 1) :=
  c7_daily_date_completeness (fun _ _ => .error "offline") 2024
    "get_sleep_data" "get_sleep_data(cdate)" true (by decide)

/-! ## C8 — `get_body_battery` date-range chunking -/

theorem seed_start_date (call : Client) (year : Nat) :
    (build_seed_context call year).start_date = ⟨year, 1, 1⟩ := rfl

theorem seed_end_date (call : Client) (year : Nat) :
    (build_seed_context call year).end_date = ⟨year, 12, 31⟩ := rfl

theorem daysInMonth_le_31 (y m : Nat) (h1 : 1 ≤ m) (h2 : m ≤ 12) :
    daysInMonth y m ≤ 31 := by
  interval_cases m <;> simp [daysInMonth] <;> split_ifs <;> omega

theorem validIn_last (y : Nat) : validIn y ⟨y, 12, 31⟩ :=
  ⟨rfl, show (1 : Nat) ≤ 12 by omega, show (12 : Nat) ≤ 12 by omega,
   show (1 : Nat) ≤ 31 by omega, show (31 : Nat) ≤ 31 by omega⟩

theorem addDaysN_add (dt : Date) (m n : Nat) :
    addDaysN dt (m + n) = addDaysN (addDaysN dt m) n := by
  induction m generalizing dt with
  | zero => rw [Nat.zero_add]; rfl
  | succ k ih =>
      have h1 : k + 1 + n = (k + n) + 1 := by omega
      rw [h1]
      show addDaysN (nextDate dt) (k + n) = addDaysN (addDaysN (nextDate dt) k) n
      exact ih (nextDate dt)

theorem addDaysN_in_year (y : Nat) : ∀ (n : Nat) (dt : Date), validIn y dt →
    dayIdx dt + n ≤ daysInYear y →
    validIn y (addDaysN dt n) ∧ dayIdx (addDaysN dt n) = dayIdx dt + n := by
  intro n
  induction n with
  | zero => intro dt hv _; exact ⟨hv, rfl⟩
  | succ k ih =>
      intro dt hv hb
      have hlt : dayIdx dt < daysInYear y := by omega
      obtain ⟨hv1, hi1⟩ := nextDate_step y dt hv hlt
      obtain ⟨hv2, hi2⟩ := ih (nextDate dt) hv1 (by omega)
      refine ⟨?_, ?_⟩
      · show validIn y (addDaysN (nextDate dt) k)
        exact hv2
      · show dayIdx (addDaysN (nextDate dt) k) = dayIdx dt + (k + 1)
        omega

theorem nextDate_year_le (dt : Date) : dt.y ≤ (nextDate dt).y := by
  unfold nextDate
  split_ifs
  · exact Nat.le_refl _
  · exact Nat.le_refl _
  · exact Nat.le_succ _

theorem addDaysN_year_le (dt : Date) : ∀ n, dt.y ≤ (addDaysN dt n).y := by
  intro n
  induction n generalizing dt with
  | zero => exact Nat.le_refl _
  | succ k ih =>
      calc dt.y ≤ (nextDate dt).y := nextDate_year_le dt
        _ ≤ (addDaysN (nextDate dt) k).y := ih (nextDate dt)

theorem addDaysN_overflow (y : Nat) (dt : Date) (n : Nat) (hv : validIn y dt)
    (hb : daysInYear y < dayIdx dt + n) :
    dateLtB ⟨y, 12, 31⟩ (addDaysN dt n) = true := by
  obtain ⟨hb1, hb2⟩ := dayIdx_bounds y dt hv
  obtain ⟨hvr, hir⟩ := addDaysN_in_year y (daysInYear y - dayIdx dt) dt hv (by omega)
  have hlast : addDaysN dt (daysInYear y - dayIdx dt) = ⟨y, 12, 31⟩ :=
    dayIdx_last_unique y _ hvr (by rw [hir]; omega)
  have hm1 : n = (daysInYear y - dayIdx dt) + ((n - (daysInYear y - dayIdx dt) - 1) + 1) := by
    omega
  rw [hm1, addDaysN_add, hlast]
  show dateLtB ⟨y, 12, 31⟩
      (addDaysN (nextDate ⟨y, 12, 31⟩) (n - (daysInYear y - dayIdx dt) - 1)) = true
  rw [nextDate_dec31]
  have hy : (⟨y + 1, 1, 1⟩ : Date).y
      ≤ (addDaysN ⟨y + 1, 1, 1⟩ (n - (daysInYear y - dayIdx dt) - 1)).y :=
    addDaysN_year_le _ _
  have hlt : y < (addDaysN ⟨y + 1, 1, 1⟩ (n - (daysInYear y - dayIdx dt) - 1)).y := by
    have h0 : (⟨y + 1, 1, 1⟩ : Date).y = y + 1 := rfl
    omega
  unfold dateLtB
  simp [hlt]

theorem dateLtB_last_false (y : Nat) (e : Date) (hv : validIn y e) :
    dateLtB ⟨y, 12, 31⟩ e = false := by
  obtain ⟨hy, hm1, hm2, hd1, hd2⟩ := hv
  have hd31 : e.d ≤ 31 := le_trans hd2 (daysInMonth_le_31 y e.m hm1 hm2)
  unfold dateLtB
  simp [hy, Nat.not_lt.mpr hm2, Nat.not_lt.mpr hd31]

theorem chunkGo_next_year_nil (y k : Nat) :
    chunkGo 31 k ⟨y + 1, 1, 1⟩ ⟨y, 12, 31⟩ = [] := by
  cases k with
  | zero => rfl
  | succ k => simp [chunkGo, dateLeB_next_year]

/-- The tiling property of a window list: starting at day ordinal `lo`, the
windows are valid dates of year `y`, consecutive (each starts the day after
the previous one ends), at most 31 days long each, and together they end
exactly at December 31. -/
def coversChain (y : Nat) : Nat → List (Date × Date) → Prop
  | lo, [] => lo = daysInYear y + 1
  | lo, (s, e) :: rest =>
      validIn y s ∧ validIn y e ∧ dayIdx s = lo ∧ dayIdx s ≤ dayIdx e ∧
      dayIdx e + 1 ≤ dayIdx s + 31 ∧ coversChain y (dayIdx e + 1) rest

theorem chunkGo_covers (y : Nat) : ∀ (fuel : Nat) (cur : Date), validIn y cur →
    daysInYear y + 1 - dayIdx cur ≤ fuel →
    coversChain y (dayIdx cur) (chunkGo 31 fuel cur ⟨y, 12, 31⟩) := by
  intro fuel
  induction fuel with
  | zero =>
      intro cur hv hf
      have hbd := dayIdx_bounds y cur hv
      exact absurd hf (by omega)
  | succ k ih =>
      intro cur hv hf
      obtain ⟨hbd1, hbd2⟩ := dayIdx_bounds y cur hv
      rw [chunkGo, if_pos (dateLeB_last y cur hv)]
      by_cases hin : dayIdx cur + 30 ≤ daysInYear y
      · obtain ⟨hve, hie⟩ := addDaysN_in_year y 30 cur hv (by omega)
        have hmin : minDate (addDaysN cur (31 - 1)) ⟨y, 12, 31⟩ = addDaysN cur 30 := by
          show minDate (addDaysN cur 30) ⟨y, 12, 31⟩ = addDaysN cur 30
          unfold minDate
          rw [dateLtB_last_false y _ hve, if_neg Bool.false_ne_true]
        show coversChain y (dayIdx cur)
            ((cur, minDate (addDaysN cur (31 - 1)) ⟨y, 12, 31⟩)
              :: chunkGo 31 k (nextDate (minDate (addDaysN cur (31 - 1)) ⟨y, 12, 31⟩)) ⟨y, 12, 31⟩)
        rw [hmin]
        refine ⟨hv, hve, rfl, by omega, by omega, ?_⟩
        by_cases hstrict : dayIdx cur + 30 < daysInYear y
        · obtain ⟨hvn, hin2⟩ := nextDate_step y (addDaysN cur 30) hve (by omega)
          have hrec := ih (nextDate (addDaysN cur 30)) hvn (by omega)
          rw [hin2] at hrec
          have hgoal : dayIdx (addDaysN cur 30) + 1 = dayIdx cur + 31 := by omega
          rw [hgoal] at hrec ⊢
          exact hrec
        · have heq2 : addDaysN cur 30 = ⟨y, 12, 31⟩ :=
            dayIdx_last_unique y _ hve (by omega)
          rw [heq2, nextDate_dec31, chunkGo_next_year_nil, dayIdx_last]
          show daysInYear y + 1 = daysInYear y + 1
          rfl
      · have hov : dateLtB ⟨y, 12, 31⟩ (addDaysN cur 30) = true :=
          addDaysN_overflow y cur 30 hv (by omega)
        have hmin : minDate (addDaysN cur (31 - 1)) ⟨y, 12, 31⟩ = ⟨y, 12, 31⟩ := by
          show minDate (addDaysN cur 30) ⟨y, 12, 31⟩ = ⟨y, 12, 31⟩
          unfold minDate
          rw [hov, if_pos rfl]
        show coversChain y (dayIdx cur)
            ((cur, minDate (addDaysN cur (31 - 1)) ⟨y, 12, 31⟩)
              :: chunkGo 31 k (nextDate (minDate (addDaysN cur (31 - 1)) ⟨y, 12, 31⟩)) ⟨y, 12, 31⟩)
        rw [hmin]
        refine ⟨hv, validIn_last y, rfl, ?_, ?_, ?_⟩
        · rw [dayIdx_last]; exact hbd2
        · rw [dayIdx_last]; omega
        · rw [nextDate_dec31, chunkGo_next_year_nil, dayIdx_last]
          show daysInYear y + 1 = daysInYear y + 1
          rfl

/-- C8: for `get_body_battery` — the method the source special-cases because
it rejects full-year ranges — with `startdate`/`enddate` parameters, the
date-range plan is the list of windows produced by chunking the year
January 1 – December 31 at 31 days, and that window list tiles the year:
every window is made of valid dates of the year, each window is at most 31
days long, each window starts the day after the previous one ends
(contiguous, hence non-overlapping), the first window starts at January 1
(day ordinal 1), and the last ends exactly at December 31. -/
theorem c8_body_battery_chunking (call : Client) (year : Nat) (sig : String) (incl : Bool)
    (hs : "startdate" ∈ parse_signature_params sig)
    (he : "enddate" ∈ parse_signature_params sig) :
    build_calls_for_method "get_body_battery" sig "date_range"
        (build_seed_context call year) incl
      = ((chunk_date_range ⟨year, 1, 1⟩ ⟨year, 12, 31⟩ 31).map (fun w =>
          [("startdate", Val.vstr (isoDate w.1)), ("enddate", Val.vstr (isoDate w.2))]), none)
    ∧ coversChain year 1 (chunk_date_range ⟨year, 1, 1⟩ ⟨year, 12, 31⟩ 31) := by
  constructor
  · simp only [build_calls_for_method]
    simp [hs, he, lookupVal, seed_start_date, seed_end_date]
  · have hv1 : validIn year ⟨year, 1, 1⟩ :=
      ⟨rfl, show (1 : Nat) ≤ 1 by omega, show (1 : Nat) ≤ 12 by omega,
       show (1 : Nat) ≤ 1 by omega, show (1 : Nat) ≤ 31 by omega⟩
    have hidx1 : dayIdx ⟨year, 1, 1⟩ = 1 := by
      show monthPrefixDays year 1 + 1 = 1
      rfl
    have hde := daysInYear_eq year
    have hcov := chunkGo_covers year 400 ⟨year, 1, 1⟩ hv1
      (by rw [hidx1]; split_ifs at hde <;> omega)
    rw [hidx1] at hcov
    exact hcov

/-- C8, witness: the chunking theorem at year 2024 and the real
`get_body_battery(startdate, enddate=None)` signature. -/
theorem c8_witness :
    build_calls_for_method "get_body_battery" "get_body_battery(startdate, enddate=None)"
        "date_range" (build_seed_context (fun _ _ => .error "offline") 2024) true
      = ((chunk_date_range ⟨2024, 1, 1⟩ ⟨2024, 12, 31⟩ 31).map (fun w =>
          [("startdate", Val.vstr (isoDate w.1)), ("enddate", Val.vstr (isoDate w.2))]), none)
    ∧ coversChain 2024 1 (chunk_date_range ⟨2024, 1, 1⟩ ⟨2024, 12, 31⟩ 31) :=
  c8_body_battery_chunking (fun _ _ => .error "offline") 2024
    "get_body_battery(startdate, enddate=None)" true (by decide) (by decide)

end GarminFetch
